import Mathlib

/-!
# ReShade runtime: uniform binding, technique toggle and preset persistence

A shallow embedding of the parts of `source/runtime.cpp` that run once per frame
(`runtime::on_present_effect`: the binding loop over `_uniforms` and the loop over
`_techniques`) and of preset persistence (`runtime::load_preset`, `runtime::save_preset`).

Machine integers are mathematical integers; the places where the source narrows to 32 or 64
bits are modelled with explicit reductions modulo `2^32` and `2^64`. The `float` operations,
the annotation conversions, the value buffers and the input provider are parameters of the
definitions that use them.
-/

namespace reshade

/-! ## Machine arithmetic -/

/-- Conversion of an integer value to `unsigned int` (32 bits): reduction modulo `2^32`. -/
def to_unsigned_int (x : Int) : Int := x % 4294967296

/-- Conversion of an integer value to `int` (32 bits, two's complement). -/
def to_int (x : Int) : Int :=
  if x % 4294967296 < 2147483648 then x % 4294967296 else x % 4294967296 - 4294967296

/-- The count of `std::chrono::duration_cast<std::chrono::milliseconds>(d)` for a duration `d`
of `ns` nanoseconds: integer division by `10^6`, truncating toward zero. -/
def milliseconds_count (ns : Int) : Int := Int.tdiv ns 1000000

/-- The statement `timeleft -= static_cast<unsigned int>(ms)` on an `int` named `timeleft`: both
operands are converted to `unsigned int`, subtracted modulo `2^32`, and the result is
converted back to `int`. -/
def sub_assign_unsigned (timeleft ms : Int) : Int :=
  to_int (to_unsigned_int (to_unsigned_int timeleft - to_unsigned_int ms))

/-! ## Data model -/

/-- Modelled from the spec: the `technique` record of `runtime_objects.hpp`, which is not part of
the sources; the fields are those `runtime.cpp` reads and writes (the opaque list of passes is
left out). The integer fields are C++ `int`s, as their initialisation from `as<int>()` in
`reload` shows; they are held as integers and every operation that can leave the 32-bit range
is reduced explicitly. `average_duration` holds the samples of the rolling average (emptied by
`clear()`, extended by `append`), `annotations` the declared key/value metadata. -/
structure technique where
  name : String
  annotations : List (String × String)
  enabled : Bool
  timeout : Int
  timeleft : Int
  toggle_key : Int
  toggle_time : Int
  toggle_key_ctrl : Bool
  toggle_key_shift : Bool
  toggle_key_alt : Bool
  average_duration : List Nat
  deriving DecidableEq

/-- The base datatype of a variable, `uniform_datatype` in the sources. -/
inductive uniform_datatype where
  | bool_
  | int_
  | uint_
  | float_
  deriving DecidableEq

/-- Modelled from the spec: the `uniform` record of `runtime_objects.hpp` (not part of the
sources), reduced to what `runtime.cpp` reads: the unique name, the base datatype, the
row/column shape and the annotation map. The value buffer is kept apart from the record. -/
structure uniform where
  unique_name : String
  basetype : uniform_datatype
  rows : Nat
  columns : Nat
  annotations : List (String × String)
  deriving DecidableEq

/-- The lookup `annotations.find(key)` on an annotation map. -/
def annotations_find (annotations : List (String × String)) (key : String) : Option String :=
  (annotations.find? (fun kv => kv.1 == key)).map Prod.snd

/-- What one call of `on_present_effect` reads from the runtime besides the techniques:
`_date[3]` (seconds since midnight), `_last_frame_duration` (a nanosecond count) and the input
provider's `is_key_pressed(keycode, ctrl, shift, alt)`. -/
structure frame where
  date3 : Int
  last_frame_duration : Int
  is_key_pressed : Int → Bool → Bool → Bool → Bool

/-- The three conditions that can flip a technique in the toggle step. -/
inductive trigger where
  | absolute_time
  | countdown
  | hotkey
  deriving DecidableEq

/-! ## The toggle step (`runtime.cpp` lines 410-430) -/

/-- The guard of the first branch: `toggle_time != 0 && toggle_time == _date[3]`. -/
def absolute_time_matches (t : technique) (f : frame) : Bool :=
  t.toggle_time != 0 && t.toggle_time == f.date3

/-- The guard of the third branch: the technique's hotkey with its modifier flags. -/
def hotkey_pressed (t : technique) (f : frame) : Bool :=
  f.is_key_pressed t.toggle_key t.toggle_key_ctrl t.toggle_key_shift t.toggle_key_alt

/-- The `if / else if / else if` chain at the head of the technique loop. The second component
records one entry for every executed `technique.enabled = !technique.enabled` statement, tagged
with the branch that executed it. -/
def toggle (t : technique) (f : frame) : technique × List trigger :=
  if absolute_time_matches t f then
    ({ t with enabled := !t.enabled, timeleft := t.timeout, toggle_time := 0 },
      [trigger.absolute_time])
  else if t.timeleft > 0 then
    let timeleft := sub_assign_unsigned t.timeleft (milliseconds_count f.last_frame_duration)
    if timeleft ≤ 0 then
      ({ t with enabled := !t.enabled, timeleft := 0 }, [trigger.countdown])
    else
      ({ t with timeleft := timeleft }, [])
  else if hotkey_pressed t f then
    ({ t with enabled := !t.enabled, timeleft := t.timeout }, [trigger.hotkey])
  else
    (t, [])

/-- What can happen to one technique between two reloads: a presented frame runs the toggle
step; the overlay checkbox and `load_preset` overwrite `enabled`. -/
inductive session_event where
  | present (f : frame)
  | set_enabled (b : Bool)

/-- One event applied to a technique, with the toggle step's flip record (empty for events
that are not frames). -/
def apply_event (t : technique) : session_event → technique × List trigger
  | session_event.present f => toggle t f
  | session_event.set_enabled b => ({ t with enabled := b }, [])

/-- A sequence of events applied in order; the second component lists, per event, the flip
record of that event. -/
def apply_events (t : technique) : List session_event → technique × List (List trigger)
  | [] => (t, [])
  | e :: es =>
    ((apply_events (apply_event t e).1 es).1,
      (apply_event t e).2 :: (apply_events (apply_event t e).1 es).2)

/-- Whether the absolute-time branch ran in a step with the given flip record. -/
def absolute_time_fired (record : List trigger) : Bool :=
  record.contains trigger.absolute_time

/-! ## Execution of the techniques (`runtime.cpp` lines 408-461) -/

/-- The calls the technique loop makes into code outside `runtime.cpp`, in program order:
`set_uniform_value(variable, &technique.timeleft, 1)` and `render_technique(technique)`. -/
inductive backend_call where
  | set_uniform_value (var : uniform) (value : Int)
  | render_technique (t : technique)
  deriving DecidableEq

/-- The loop over `_uniforms` inside the technique loop: one write of `timeleft` for every
variable that has a `source` annotation equal to `timeleft`. -/
def timeleft_writes (uniforms : List uniform) (t : technique) : List backend_call :=
  uniforms.filterMap (fun var =>
    match annotations_find var.annotations "source" with
    | none => none
    | some source =>
      if source = "timeleft" then some (backend_call.set_uniform_value var t.timeleft)
      else none)

/-- The body of the technique loop for one technique: the toggle step, then either the
`clear()` of the average and `continue`, or the `timeleft` writes, `render_technique` and the
`append` of the measured duration (`render_duration`, read from the clock). -/
def present_technique (uniforms : List uniform) (f : frame) (render_duration : technique → Nat)
    (t : technique) : technique × List backend_call :=
  if !(toggle t f).1.enabled then
    ({ (toggle t f).1 with average_duration := [] }, [])
  else
    ({ (toggle t f).1 with
        average_duration := (toggle t f).1.average_duration ++ [render_duration (toggle t f).1] },
      timeleft_writes uniforms (toggle t f).1 ++ [backend_call.render_technique (toggle t f).1])

/-- The technique loop of `on_present_effect`: the body for every technique, in order. -/
def present_techniques (uniforms : List uniform) (f : frame) (render_duration : technique → Nat) :
    List technique → List technique × List backend_call
  | [] => ([], [])
  | t :: ts =>
    ((present_technique uniforms f render_duration t).1 ::
        (present_techniques uniforms f render_duration ts).1,
      (present_technique uniforms f render_duration t).2 ++
        (present_techniques uniforms f render_duration ts).2)

/-- Whether a backend call is an execution of a technique. -/
def is_render : backend_call → Bool
  | backend_call.render_technique _ => true
  | backend_call.set_uniform_value _ _ => false

/-! ## Preset persistence: the technique list (`runtime.cpp` lines 873-883 and 906-916) -/

/-- The sort key `std::find(order.begin(), order.end(), name) - order.begin()`: the index of
the first occurrence of `name`, or the length of `order` when there is none. -/
def order_position (order : List String) (name : String) : Nat := order.indexOf name

/-- The comparison object passed to `std::sort` in `load_preset`. -/
def technique_less (order : List String) (lhs rhs : technique) : Bool :=
  decide (order_position order lhs.name < order_position order rhs.name)

/-- The contract of `std::sort(first, last, comp)`: the range afterwards is a rearrangement of
the range before in which no element compares less than an element in front of it. The
relative order of equivalent elements is left open by the library. -/
def std_sort_result {α : Type} (comp : α → α → Bool) (before after : List α) : Prop :=
  after.Perm before ∧ after.Pairwise (fun a b => comp b a = false)

instance std_sort_result_decidable {α : Type} [DecidableEq α] (comp : α → α → Bool)
    (before after : List α) : Decidable (std_sort_result comp before after) := by
  unfold std_sort_result
  infer_instance

/-- The assignment `technique.enabled = std::find(...) != order.end()`. -/
def set_enabled_from_order (order : List String) (t : technique) : technique :=
  { t with enabled := order.contains t.name }

/-- The technique part of `load_preset` for the name list `order` read from `GLOBAL/Techniques`:
`after` is a possible content of `_techniques` when the function returns. -/
def load_preset_techniques (order : List String) (before after : List technique) : Prop :=
  ∃ sorted, std_sort_result (technique_less order) before sorted ∧
    after = sorted.map (set_enabled_from_order order)

/-- A stable sort by `order_position` (insertion sort), one admissible behaviour of the
`std::sort` call. -/
def stable_sort_techniques (order : List String) (ts : List technique) : List technique :=
  ts.insertionSort (fun a b => order_position order a.name ≤ order_position order b.name)

/-- The string `technique_list` that `save_preset` builds and stores under `GLOBAL/Techniques`. -/
def save_preset_technique_list (ts : List technique) : String :=
  ts.foldl (fun technique_list t =>
    if t.enabled then technique_list ++ (t.name ++ ",") else technique_list) ""

/-- A technique with the given name and flag and every other field zero. -/
def technique_named (name : String) (enabled : Bool) : technique :=
  { name := name, annotations := [], enabled := enabled, timeout := 0, timeleft := 0,
    toggle_key := 0, toggle_time := 0, toggle_key_ctrl := false, toggle_key_shift := false,
    toggle_key_alt := false, average_duration := [] }


/-! ## Statements of the specification used for comparison -/

/-- The countdown transition in the words of the specification: `timeleft` decremented by the
elapsed frame duration in milliseconds; a result `<= 0` flips `enabled` and leaves `timeleft`
at `0`, otherwise `enabled` is kept and `timeleft` is the decremented value. -/
def countdown_as_specified (t : technique) (f : frame) : technique :=
  if t.timeleft - milliseconds_count f.last_frame_duration ≤ 0 then
    { t with enabled := !t.enabled, timeleft := 0 }
  else
    { t with timeleft := t.timeleft - milliseconds_count f.last_frame_duration }


/-- A technique with its `enabled` flag blanked: what identifies it apart from the flag that
`load_preset` overwrites. -/
def clear_enabled (t : technique) : technique := { t with enabled := false }

/-- Stability in the words of the specification: techniques with equal position in the name
list (both absent from it, or bearing the same name) keep the relative order they had, i.e.
for every position the techniques at that position form the same sequence before and after. -/
def keeps_relative_order (order : List String) (before after : List technique) : Prop :=
  ∀ k : Nat,
    (after.filter (fun t => order_position order t.name == k)).map clear_enabled =
      (before.filter (fun t => order_position order t.name == k)).map clear_enabled

/-- The names of the currently-enabled techniques, in collection order. -/
def enabled_names (ts : List technique) : List String :=
  (ts.filter (fun t => t.enabled)).map (fun t => t.name)

/-- The stored value in the words of the specification: the comma-joined list of the names of
the enabled techniques. -/
def technique_list_as_specified (ts : List technique) : String :=
  String.intercalate "," (enabled_names ts)


/-! ## Concrete inputs used to exercise the theorems -/

/-- A disabled technique due to toggle at one o'clock, with a countdown still running. -/
def sample_scheduled : technique :=
  { technique_named "Bloom" false with toggle_time := 3600, timeout := 2000, timeleft := 5 }

/-- An enabled technique with 20 ms left on its countdown. -/
def sample_counting : technique :=
  { technique_named "Bloom" true with timeout := 5000, timeleft := 20 }

/-- A disabled technique with hotkey F2 (keycode 113, no modifiers) and no countdown running. -/
def sample_idle : technique :=
  { technique_named "Bloom" false with toggle_key := 113, timeout := 3000 }

/-- A frame at one o'clock that lasted 16.7 ms, in which F2 was pressed without modifiers. -/
def sample_frame : frame :=
  { date3 := 3600, last_frame_duration := 16700000,
    is_key_pressed := fun key ctrl shift alt => key == 113 && !ctrl && !shift && !alt }

/-- A frame at noon that lasted 16.7 ms, in which F2 was pressed without modifiers. -/
def sample_frame_noon : frame :=
  { date3 := 43200, last_frame_duration := 16700000,
    is_key_pressed := fun key ctrl shift alt => key == 113 && !ctrl && !shift && !alt }

/-- A disabled technique with 5000 ms left on its countdown. -/
def sample_long_countdown : technique :=
  { technique_named "Bloom" false with timeout := 5000, timeleft := 5000 }

/-- A frame at noon whose recorded duration is `2^32` milliseconds. -/
def sample_frame_overlong : frame :=
  { date3 := 43200, last_frame_duration := 4294967296000000,
    is_key_pressed := fun _ _ _ _ => false }

/-- Two techniques named `Bloom` contributed by different effect files, the first enabled and
the second disabled. -/
def sample_same_name : List technique :=
  [{ technique_named "Bloom" true with annotations := [("__FILE__", "Bloom.fx")] },
    { technique_named "Bloom" false with annotations := [("__FILE__", "Glow.fx")] }]

/-! ## Reading the technique list back from the preset file -/

/-- Modelled from the spec: how the preset file's `GLOBAL/Techniques` value is read as a list
(`ini_file` is not part of the sources). The value is cut at every comma; the characters after
the last comma form a final name only when there are any, so that a value ending in a comma
yields no empty last name. `piece` holds the characters of the name being read. -/
def split_commas : List Char → List Char → List String
  | [], piece => if piece = [] then [] else [String.mk piece]
  | c :: cs, piece =>
    if c = ',' then String.mk piece :: split_commas cs [] else split_commas cs (piece ++ [c])

/-- Modelled from the spec: the name list `preset.get("GLOBAL", "Techniques").data()` for a
stored value, its comma-separated names in order. -/
def read_technique_list (value : String) : List String := split_commas value.data []

/-- The name list `load_preset` reads from the preset that `save_preset` has just written for
the collection `ts`. -/
def saved_order (ts : List technique) : List String :=
  read_technique_list (save_preset_technique_list ts)

/-- The enabled techniques of a collection, in collection order. -/
def enabled_techniques (ts : List technique) : List technique := ts.filter (fun t => t.enabled)

/-- Three techniques with distinct names, the first two enabled. -/
def sample_distinct : List technique :=
  [technique_named "Bloom" true, technique_named "Sharpen" true, technique_named "Vignette" false]

/-! ## The uniform binding pass (`runtime.cpp` lines 234-406) -/

/-- The `float` operations the binding pass uses, taken as parameters: Lean has no binary32
arithmetic, and nothing is assumed about these operations. `of_int` is the conversion of an
integer value to `float`; `lt`, `le`, `ge`, `eq` are the C++ comparisons `<`, `<=`, `>=`, `==`;
`fmod` is `std::fmod` / `std::fmodf`; the three literals are `0.05f`, `1e-6f` and `1e-9f`. -/
structure float_ops (F : Type) where
  of_int : Int → F
  literal_0_05 : F
  literal_1e_6 : F
  literal_1e_9 : F
  add : F → F → F
  sub : F → F → F
  mul : F → F → F
  fmod : F → F → F
  lt : F → F → Bool
  le : F → F → Bool
  ge : F → F → Bool
  eq : F → F → Bool

/-- The function `std::max(a, b)`, which is `(a < b) ? b : a`. -/
def std_max {F : Type} (ops : float_ops F) (a b : F) : F := if ops.lt a b then b else a

/-- The conversions `variant::as<T>(index)` of an annotation's text (`variant` is not part of
the sources), taken as parameters. -/
structure variant_access (F : Type) where
  as_int : String → Int
  as_bool : String → Bool
  as_float : String → Nat → F

/-- The expression `variable.annotations[key]`: the annotation's text, empty when the variable
has no such annotation. -/
def annotation_text (v : uniform) (key : String) : String :=
  (annotations_find v.annotations key).getD ""

/-- The data handed to one call of `set_uniform_value(variable, values, count)`. -/
inductive uniform_data (F : Type) where
  | bools (values : List Bool)
  | ints (values : List Int)
  | uints (values : List Nat)
  | floats (values : List F)

/-- The accessors of a variable's value buffer (`get_uniform_value` and `set_uniform_value`,
defined outside `runtime.cpp`), taken as parameters over a buffer type `B`: reading one `bool`,
reading two `float`s, reading the sixteen `float`s of `float values[16]`, and writing. -/
structure uniform_storage (F B : Type) where
  get_bool : uniform → B → Bool
  get_float2 : uniform → B → F × F
  get_float16 : uniform → B → Fin 16 → F
  set_uniform_value : uniform → B → uniform_data F → B

/-- What the binding loop reads from the runtime and the input provider: `_framecount`,
`_last_frame_duration` (nanoseconds), `_date`, the count of
`duration_cast<nanoseconds>(_last_present - _start_time)`, and the key and mouse state. -/
structure binding_frame where
  framecount : Nat
  last_frame_duration : Int
  date : List Int
  timer_count : Int
  is_key_pressed : Int → Bool
  is_key_down : Int → Bool
  is_mouse_button_pressed : Int → Bool
  is_mouse_button_down : Int → Bool
  mouse_position_x : Int
  mouse_position_y : Int

/-- The constant `UINT_MAX` of a platform with 32-bit `unsigned int`. -/
def UINT_MAX : Nat := 4294967295

/-- Conversion of an integer value to `unsigned long long` (64 bits). -/
def to_unsigned_long_long (x : Int) : Nat := (x % 18446744073709551616).toNat

/-- The `framecount` / `framecounter` branch (lines 252-273): the data written for a variable
of the given base datatype when `_framecount` is `n`. -/
def framecount_value {F : Type} (ops : float_ops F) (basetype : uniform_datatype) (n : Nat) :
    uniform_data F :=
  match basetype with
  | uniform_datatype.bool_ => uniform_data.bools [decide (n % 2 = 0)]
  | uniform_datatype.int_ => uniform_data.uints [(n % UINT_MAX) % 4294967296]
  | uniform_datatype.uint_ => uniform_data.uints [(n % UINT_MAX) % 4294967296]
  | uniform_datatype.float_ => uniform_data.floats [ops.of_int ((n % 16777216 : Nat) : Int)]

/-- The `timer` branch (lines 316-339) for the signed nanosecond count `count`. -/
def timer_value {F : Type} (ops : float_ops F) (basetype : uniform_datatype) (count : Int) :
    uniform_data F :=
  match basetype with
  | uniform_datatype.bool_ =>
    uniform_data.bools [decide (to_unsigned_long_long count % 2 = 0)]
  | uniform_datatype.int_ =>
    uniform_data.uints [(to_unsigned_long_long count % UINT_MAX) % 4294967296]
  | uniform_datatype.uint_ =>
    uniform_data.uints [(to_unsigned_long_long count % UINT_MAX) % 4294967296]
  | uniform_datatype.float_ =>
    uniform_data.floats
      [ops.fmod (ops.mul (ops.of_int (to_unsigned_long_long count)) ops.literal_1e_6)
        (ops.of_int 16777216)]

/-- Line 282: the increment picked for this frame, `r` being the output of `std::rand()`. -/
def pingpong_increment {F : Type} (ops : float_ops F) (step_min step_max : F) (r : Int) : F :=
  if ops.eq step_max (ops.of_int 0) then step_min
  else ops.add step_min
    (ops.fmod (ops.of_int r) (ops.add (ops.sub step_max step_min) (ops.of_int 1)))

/-- Lines 287 and 298: the increment after the smoothing reduction, floored at `0.05f`;
`room` is `max - value[0]` when moving up and `value[0] - min` when moving down. -/
def pingpong_smoothed {F : Type} (ops : float_ops F) (increment smoothing room : F) : F :=
  std_max ops (ops.sub increment (std_max ops (ops.of_int 0) (ops.sub smoothing room)))
    ops.literal_0_05

/-- Lines 288 and 299: `increment *= _last_frame_duration.count() * 1e-9f`. -/
def pingpong_scaled {F : Type} (ops : float_ops F) (increment : F) (duration : Int) : F :=
  ops.mul increment (ops.mul (ops.of_int duration) ops.literal_1e_9)

/-- The increment added to `value[0]` when moving up (lines 282, 287, 288). -/
def pingpong_step_up {F : Type} (ops : float_ops F) (max step_min step_max smoothing : F)
    (duration r : Int) (value : F × F) : F :=
  pingpong_scaled ops
    (pingpong_smoothed ops (pingpong_increment ops step_min step_max r) smoothing
      (ops.sub max value.1)) duration

/-- The increment subtracted from `value[0]` when moving down (lines 282, 298, 299). -/
def pingpong_step_down {F : Type} (ops : float_ops F) (min step_min step_max smoothing : F)
    (duration r : Int) (value : F × F) : F :=
  pingpong_scaled ops
    (pingpong_smoothed ops (pingpong_increment ops step_min step_max r) smoothing
      (ops.sub value.1 min)) duration

/-- The `pingpong` branch (lines 285-306): the pair `value[0], value[1]` written back, from
the pair read from the variable. -/
def pingpong_update {F : Type} (ops : float_ops F) (min max step_min step_max smoothing : F)
    (duration r : Int) (value : F × F) : F × F :=
  if ops.ge value.2 (ops.of_int 0) then
    if ops.ge
        (ops.add value.1 (pingpong_step_up ops max step_min step_max smoothing duration r value))
        max then
      (max, ops.of_int (-1))
    else
      (ops.add value.1 (pingpong_step_up ops max step_min step_max smoothing duration r value),
        value.2)
  else
    if ops.le
        (ops.sub value.1
          (pingpong_step_down ops min step_min step_max smoothing duration r value))
        min then
      (min, ops.of_int 1)
    else
      (ops.sub value.1
          (pingpong_step_down ops min step_min step_max smoothing duration r value),
        value.2)

/-- The `key` branch (lines 343-365) and, with the bounds `0 < index < 5`, the `mousebutton`
branch (lines 375-397): the value written, if any, from the stored boolean `current`. -/
def toggle_or_state (in_range toggle pressed down current : Bool) : Option Bool :=
  if in_range then
    if toggle then
      if pressed then some (!current) else none
    else some down
  else none

/-- The `key` branch: `keycode` is `annotations["keycode"].as<int>()`. -/
def key_value (frame : binding_frame) (keycode : Int) (toggle current : Bool) : Option Bool :=
  toggle_or_state (decide (keycode > 7) && decide (keycode < 256)) toggle
    (frame.is_key_pressed keycode) (frame.is_key_down keycode) current

/-- The `mousebutton` branch. -/
def mousebutton_value (frame : binding_frame) (index : Int) (toggle current : Bool) :
    Option Bool :=
  toggle_or_state (decide (index > 0) && decide (index < 5)) toggle
    (frame.is_mouse_button_pressed index) (frame.is_mouse_button_down index) current

/-- The divisor `max - min + 1` of line 402, computed in `int`. -/
def random_modulus (min max : Int) : Int := to_int (to_int (max - min) + 1)

/-- The `random` branch (line 402): `min + (std::rand() % (max - min + 1))` in `int`
arithmetic, `r` being the output of `std::rand()`; there is no value when the divisor is
zero. -/
def random_value (min max r : Int) : Option Int :=
  if random_modulus min max = 0 then none
  else some (to_int (min + Int.tmod r (random_modulus min max)))

/-- The source strings the binding loop compares against, in the order of its branches. -/
def bound_sources : List String :=
  ["frametime", "framecount", "framecounter", "pingpong", "date", "timer", "key",
    "mousepoint", "mousebutton", "random"]
/-- The `pingpong` branch for the variable `v` (lines 277-306): the pair read from its buffer,
updated with the bounds, step range and smoothing of its annotations. -/
def pingpong_binding {F B : Type} (ops : float_ops F) (va : variant_access F)
    (st : uniform_storage F B) (frame : binding_frame) (r : Int) (v : uniform) (b : B) : F × F :=
  pingpong_update ops (va.as_float (annotation_text v "min") 0)
    (va.as_float (annotation_text v "max") 0) (va.as_float (annotation_text v "step") 0)
    (va.as_float (annotation_text v "step") 1) (va.as_float (annotation_text v "smoothing") 0)
    frame.last_frame_duration r (st.get_float2 v b)

/-- What the loop body does to one variable: nothing, one call of `set_uniform_value`, or the
division `std::rand() % 0`, which has no result. -/
inductive binding_outcome (F : Type) where
  | unchanged
  | written (data : uniform_data F)
  | division_by_zero

/-- The body of the binding loop (lines 236-405) for the variable `v` with value buffer `b`;
`r` is the output of `std::rand()` should the body call it. -/
def bind_uniform {F B : Type} (ops : float_ops F) (va : variant_access F)
    (st : uniform_storage F B) (frame : binding_frame) (r : Int) (v : uniform) (b : B) :
    binding_outcome F :=
  match annotations_find v.annotations "source" with
  | none => binding_outcome.unchanged
  | some source =>
    if source = "frametime" then
      binding_outcome.written
        (uniform_data.floats [ops.mul (ops.of_int frame.last_frame_duration) ops.literal_1e_6])
    else if source = "framecount" ∨ source = "framecounter" then
      binding_outcome.written (framecount_value ops v.basetype frame.framecount)
    else if source = "pingpong" then
      binding_outcome.written
        (uniform_data.floats
          [(pingpong_binding ops va st frame r v b).1, (pingpong_binding ops va st frame r v b).2])
    else if source = "date" then
      binding_outcome.written (uniform_data.ints frame.date)
    else if source = "timer" then
      binding_outcome.written (timer_value ops v.basetype frame.timer_count)
    else if source = "key" then
      match key_value frame (va.as_int (annotation_text v "keycode"))
          (va.as_bool (annotation_text v "toggle")) (st.get_bool v b) with
      | none => binding_outcome.unchanged
      | some state => binding_outcome.written (uniform_data.bools [state])
    else if source = "mousepoint" then
      binding_outcome.written
        (uniform_data.floats
          [ops.of_int frame.mouse_position_x, ops.of_int frame.mouse_position_y])
    else if source = "mousebutton" then
      match mousebutton_value frame (va.as_int (annotation_text v "keycode"))
          (va.as_bool (annotation_text v "toggle")) (st.get_bool v b) with
      | none => binding_outcome.unchanged
      | some state => binding_outcome.written (uniform_data.bools [state])
    else if source = "random" then
      match random_value (va.as_int (annotation_text v "min"))
          (va.as_int (annotation_text v "max")) r with
      | none => binding_outcome.division_by_zero
      | some value => binding_outcome.written (uniform_data.ints [value])
    else binding_outcome.unchanged

/-- How many times the loop body calls `std::rand()` for the variable `v`. -/
def rand_calls {F : Type} (ops : float_ops F) (va : variant_access F) (v : uniform) : Nat :=
  match annotations_find v.annotations "source" with
  | none => 0
  | some source =>
    if source = "pingpong" then
      if ops.eq (va.as_float (annotation_text v "step") 1) (ops.of_int 0) then 0 else 1
    else if source = "random" then 1
    else 0

/-- The binding loop over `_uniforms`, each variable paired with its value buffer; `rand k` is
the output of the `k`-th call of `std::rand()` from now on. There is no result when a
`random` variable divides by zero. -/
def binding_loop {F B : Type} (ops : float_ops F) (va : variant_access F)
    (st : uniform_storage F B) (frame : binding_frame) (rand : Nat → Int) :
    Nat → List (uniform × B) → Option (List (uniform × B))
  | _, [] => some []
  | k, (v, b) :: rest =>
    match bind_uniform ops va st frame (rand k) v b with
    | binding_outcome.division_by_zero => none
    | binding_outcome.unchanged =>
      (binding_loop ops va st frame rand (k + rand_calls ops va v) rest).map
        (fun done => (v, b) :: done)
    | binding_outcome.written data =>
      (binding_loop ops va st frame rand (k + rand_calls ops va v) rest).map
        (fun done => (v, st.set_uniform_value v b data) :: done)

/-! ## Preset persistence: the variables (`runtime.cpp` lines 889-904) -/

/-- One call `preset.set(section, key, variant(values, count))`. -/
structure preset_entry (F : Type) where
  section_name : String
  key : String
  values : List F

/-- The condition of `assert(variable.rows * variable.columns < 16)` at line 901. The
assertion is a debugging check (absent when `NDEBUG` is defined) and the entry written does
not depend on it, so it is stated on its own. -/
def save_preset_assertion (v : uniform) : Bool := decide (v.rows * v.columns < 16)

/-- The body of the variable loop of `save_preset` for the variable `v` with value buffer `b`:
the entry written, if any. `filename` is `filesystem::path::filename` (not part of the
sources); the array `values` holds sixteen floats, of which the first `rows * columns` are
stored. -/
def save_preset_entry {F B : Type} (st : uniform_storage F B) (filename : String → String)
    (v : uniform) (b : B) : Option (preset_entry F) :=
  if (annotations_find v.annotations "source").isSome ||
      !(annotations_find v.annotations "__FILE__").isSome then
    none
  else
    some
      { section_name := filename (annotation_text v "__FILE__"),
        key := v.unique_name,
        values := ((List.finRange 16).map (st.get_float16 v b)).take (v.rows * v.columns) }

/-- The variable loop of `save_preset`: the entries written, in order. -/
def save_preset_uniforms {F B : Type} (st : uniform_storage F B) (filename : String → String)
    (uniforms : List (uniform × B)) : List (preset_entry F) :=
  uniforms.filterMap (fun vb => save_preset_entry st filename vb.1 vb.2)

/-- A variable the binding loop has no branch for: it has no `source` annotation, or its
source string is none of those the loop compares against. -/
def unbound (v : uniform) : Prop :=
  match annotations_find v.annotations "source" with
  | none => True
  | some source => source ∉ bound_sources
/-! ## Exact arithmetic for evaluating the `float` code on concrete inputs -/

/-- The remainder `std::fmod(x, y)` of rationals: `x - n * y` with `n` the quotient `x / y`
truncated toward zero; there is no number for it when `y` is zero. -/
def exact_fmod (x y : ℚ) : Option ℚ :=
  if y = 0 then none
  else if 0 ≤ x / y then some (x - y * (⌊x / y⌋ : ℤ))
  else some (x + y * (⌊-(x / y)⌋ : ℤ))

/-- Exact rational arithmetic, with `none` where binary32 has NaN: on binary32 numbers each
operation agrees with binary32 whenever its exact result is a binary32 number as well. The
decimal literals are the binary32 numbers nearest to them. It serves to evaluate the `float`
code at inputs of that kind. -/
def exact_ops : float_ops (Option ℚ) where
  of_int z := some (z : ℚ)
  literal_0_05 := some (13421773 / 268435456)
  literal_1e_6 := some (8796093 / 8796093022208)
  literal_1e_9 := some (9007199 / 9007199254740992)
  add a b := match a, b with
    | some x, some y => some (x + y)
    | _, _ => none
  sub a b := match a, b with
    | some x, some y => some (x - y)
    | _, _ => none
  mul a b := match a, b with
    | some x, some y => some (x * y)
    | _, _ => none
  fmod a b := match a, b with
    | some x, some y => exact_fmod x y
    | _, _ => none
  lt a b := match a, b with
    | some x, some y => decide (x < y)
    | _, _ => false
  le a b := match a, b with
    | some x, some y => decide (x ≤ y)
    | _, _ => false
  ge a b := match a, b with
    | some x, some y => decide (x ≥ y)
    | _, _ => false
  eq a b := match a, b with
    | some x, some y => decide (x = y)
    | _, _ => false
/-! ## Concrete inputs for the binding pass -/

/-- A reading of annotation texts that knows the few texts used below. -/
def sample_variant_access : variant_access (Option ℚ) where
  as_int text :=
    if text = "65" then 65 else if text = "6" then 6 else if text = "1" then 1 else 0
  as_bool text := decide (text = "true")
  as_float _ _ := some 0

/-- Value buffers that hold one boolean. -/
def sample_storage : uniform_storage (Option ℚ) Bool where
  get_bool _ b := b
  get_float2 _ _ := (some 0, some 0)
  get_float16 _ _ _ := some 0
  set_uniform_value _ b data :=
    match data with
    | uniform_data.bools (x :: _) => x
    | _ => b

/-- A frame in which the key `A` (keycode 65) is held down and was pressed this frame. -/
def sample_binding_frame : binding_frame where
  framecount := 120
  last_frame_duration := 16700000
  date := [2017, 3, 14, 43200]
  timer_count := 2000000000
  is_key_pressed key := decide (key = 65)
  is_key_down key := decide (key = 65)
  is_mouse_button_pressed _ := false
  is_mouse_button_down _ := false
  mouse_position_x := 100
  mouse_position_y := 200

/-- A boolean variable bound to the key `A` as a toggle, declared in `Effect.fx`. -/
def sample_key_uniform : uniform where
  unique_name := "Effect_fx_bToggle"
  basetype := uniform_datatype.bool_
  rows := 1
  columns := 1
  annotations := [("source", "key"), ("keycode", "65"), ("toggle", "true"),
    ("__FILE__", "shaders/Effect.fx")]

/-! ## Properties of `float` arithmetic assumed where a claim depends on them -/

/-- One call of the preprocessor's `add_macro_definition`: with a name and a value, or with a
name alone. -/
inductive added_definition where
  | valued (name value : String)
  | bare (name : String)
  deriving DecidableEq

/-- The body of the loop over `_preprocessor_definitions` for one definition string: nothing
for an empty string; otherwise the string is cut at the index `find_first_of('=')` returns,
and passed whole when there is no `=`. -/
def add_user_definition (definition : String) : Option added_definition :=
  if definition.data = [] then none
  else if definition.data.indexOf '=' < definition.data.length then
    some (added_definition.valued
      (String.mk (definition.data.take (definition.data.indexOf '=')))
      (String.mk (definition.data.drop (definition.data.indexOf '=' + 1))))
  else some (added_definition.bare definition)

/-- The definitions added for the list `_preprocessor_definitions`, in order. -/
def add_user_definitions (definitions : List String) : List added_definition :=
  definitions.filterMap add_user_definition
/-! ## Configuration (`runtime.cpp` lines 718-846) -/

/-- Line 726: `_input_processing_mode = config.get("General", "InputProcessing",
_input_processing_mode).as<bool>()`. The stored text is converted with `as<bool>` (a
parameter, `variant` not being part of the sources) and the `bool` is converted to the
`int` it is assigned to. -/
def load_input_processing_mode (as_bool : String → Bool) (stored : String) : Int :=
  if as_bool stored then 1 else 0

/-- The preset list and the selected index, `_preset_files` and `_current_preset`. -/
structure preset_selection where
  preset_files : List String
  current_preset : Int
  deriving DecidableEq

/-- Conversion of an `int` to `size_t`, of `bits` bits, as the comparisons of an `int` with
`_preset_files.size()` perform it. -/
def to_size_t (bits : Nat) (x : Int) : Nat := (x % (2 : Int) ^ bits).toNat

/-- Lines 733-735 and 799-820 of `load_configuration`: `stored_files` and `stored_index` are
what the configuration supplies for `PresetFiles` and `CurrentPreset`; `discovered` are the
`*.ini` files found next to the injector, of which those with a non-empty technique list
(`has_techniques`) are taken when the configured list is empty. -/
def load_configuration_presets (bits : Nat) (stored_files : List String) (stored_index : Int)
    (discovered : List String) (has_techniques : String → Bool) : preset_selection :=
  if stored_files = [] then
    { preset_files := discovered.filter has_techniques, current_preset := -1 }
  else if to_size_t bits stored_index ≥ stored_files.length then
    { preset_files := stored_files, current_preset := -1 }
  else
    { preset_files := stored_files, current_preset := stored_index }

/-- Lines 1179-1181, the overlay's add-preset action: the path is appended and selected;
`size() - 1` is converted from `size_t` to `int`. -/
def add_preset (s : preset_selection) (path : String) : preset_selection :=
  { preset_files := s.preset_files ++ [path],
    current_preset := to_int (((s.preset_files ++ [path]).length : Int) - 1) }

/-- Lines 1208-1213, the overlay's remove-preset action, offered when `_current_preset >= 0`:
the selected entry is erased and the index steps back when it now equals the size. -/
def remove_preset (bits : Nat) (s : preset_selection) : preset_selection :=
  if to_size_t bits s.current_preset =
      (s.preset_files.eraseIdx s.current_preset.toNat).length then
    { preset_files := s.preset_files.eraseIdx s.current_preset.toNat,
      current_preset := s.current_preset - 1 }
  else
    { preset_files := s.preset_files.eraseIdx s.current_preset.toNat,
      current_preset := s.current_preset }

/-- The selected index is `-1` or a valid index into the preset list. -/
def valid_selection (s : preset_selection) : Prop :=
  s.current_preset = -1 ∨ (0 ≤ s.current_preset ∧ s.current_preset < s.preset_files.length)

/-- A `float4x4` variable declared in `Effect.fx`, user-tweakable (no `source` annotation). -/
def sample_matrix_uniform : uniform where
  unique_name := "Effect_fx_mTransform"
  basetype := uniform_datatype.float_
  rows := 4
  columns := 4
  annotations := [("__FILE__", "shaders/Effect.fx")]

/-! ## Key shortcuts as text (`runtime.cpp` lines 27-38, 1028 and 1321-1328) -/

/-- A key shortcut: `keycode`, `ctrl` and `shift` as the source reads them. -/
structure key_shortcut where
  keycode : Nat
  ctrl : Bool
  shift : Bool
  deriving DecidableEq

/-- The terminating character of a C string. -/
def nul : Char := Char.ofNat 0

/-- The initialisers of `keyboard_keys` (lines 28-37), in order; the array has 256 rows and
the rows past the last initialiser are zero-initialised. -/
def keyboard_key_names : List String :=
  ["", "", "", "Cancel", "", "", "", "", "Backspace", "Tab", "", "", "Clear", "Enter", "", "",
   "Shift", "Control", "Alt", "Pause", "Caps Lock", "", "", "", "", "", "", "Escape", "", "",
   "", "",
   "Space", "Page Up", "Page Down", "End", "Home", "Left Arrow", "Up Arrow", "Right Arrow",
   "Down Arrow", "Select", "", "", "Print Screen", "Insert", "Delete", "Help",
   "0", "1", "2", "3", "4", "5", "6", "7", "8", "9", "", "", "", "", "", "",
   "", "A", "B", "C", "D", "E", "F", "G", "H", "I", "J", "K", "L", "M", "N", "O",
   "P", "Q", "R", "S", "T", "U", "V", "W", "X", "Y", "Z", "Left Windows", "Right Windows", "",
   "", "Sleep",
   "Numpad 0", "Numpad 1", "Numpad 2", "Numpad 3", "Numpad 4", "Numpad 5", "Numpad 6",
   "Numpad 7", "Numpad 8", "Numpad 9", "Numpad *", "Numpad +", "", "Numpad -",
   "Numpad Decimal", "Numpad /",
   "F1", "F2", "F3", "F4", "F5", "F6", "F7", "F8", "F9", "F10", "F11", "F12", "F13", "F14",
   "F15", "F16",
   "F17", "F18", "F19", "F20", "F21", "F22", "F23", "F24", "", "", "", "", "", "", "", "",
   "Num Lock", "Scroll Lock"] ++ List.replicate 110 ""

/-- The bytes of a `char[size]` initialised from a string literal: the characters of the
literal, then `nul` up to `size`. -/
def char_array (text : String) (size : Nat) : List Char :=
  (text.data ++ List.replicate size nul).take size

/-- The row `keyboard_keys[keycode]`, a `char[16]`. -/
def keyboard_keys (keycode : Nat) : List Char :=
  char_array (keyboard_key_names.getD keycode "") 16

/-- The call `memcpy(buffer + offset, source, source.length)` on a buffer given as the
character at each index. -/
def memcpy (buffer : Nat → Char) (offset : Nat) (source : List Char) : Nat → Char :=
  fun i =>
    if offset ≤ i ∧ i < offset + source.length then source.getD (i - offset) nul else buffer i

/-- The characters of the NUL-terminated text that starts at index `start`, reading at most
`size` characters. -/
def c_string (buffer : Nat → Char) (start : Nat) : Nat → List Char
  | 0 => []
  | size + 1 =>
    if buffer start = nul then [] else buffer start :: c_string buffer (start + 1) size

/-- The lambda `copy_key_shortcut_to_edit_buffer` (lines 1323-1328); `edit_buffer` is the
content of the local `char edit_buffer[2048]` before the call, which the source leaves
uninitialised. The first two copies both go to the start of the buffer, the third to
`edit_buffer + offset`. -/
def copy_key_shortcut_to_edit_buffer (edit_buffer : Nat → Char) (shortcut : key_shortcut) :
    Nat → Char :=
  let offset0 : Nat := 0
  let buffer1 := if shortcut.ctrl then memcpy edit_buffer 0 (char_array "Ctrl + " 8)
    else edit_buffer
  let offset1 := if shortcut.ctrl then offset0 + 7 else offset0
  let buffer2 := if shortcut.shift then memcpy buffer1 0 (char_array "Shift + " 9)
    else buffer1
  let offset2 := if shortcut.shift then offset1 + 8 else offset1
  memcpy buffer2 offset2 (keyboard_keys shortcut.keycode)

/-- The NUL-terminated text the settings page shows from the 2048-character edit buffer. -/
def edit_buffer_text (edit_buffer : Nat → Char) : List Char :=
  c_string edit_buffer 0 2048

/-- The three `%s` arguments of the splash message (line 1028), concatenated as `printf`
does: each argument is read up to its first `nul`. -/
def splash_shortcut_text (menu_key : key_shortcut) : List Char :=
  (if menu_key.ctrl then "Ctrl + " else "").data ++
    (if menu_key.shift then "Shift + " else "").data ++
    (keyboard_keys menu_key.keycode).takeWhile (fun c => c != nul)

/-! ## Performance mode (`runtime.cpp` lines 483-520) -/

/-- One slot of a literal's value storage, named after the member the source writes it
through (`value_int`, `value_uint`, `value_float`). -/
inductive literal_value (F : Type) where
  | value_int (v : Int)
  | value_uint (v : Nat)
  | value_float (v : F)

/-- Modelled from the spec: a literal expression of the syntax tree (the node types are not
part of the sources), reduced to what lines 497-515 use: the base datatype and the value
slots. -/
structure literal_expression_node (F : Type) where
  basetype : uniform_datatype
  values : List (literal_value F)

/-- Modelled from the spec: an initializer expression, which is a literal or a node of some
other kind `id`. -/
inductive expression_node (F : Type) where
  | literal_expression (node : literal_expression_node F)
  | other_expression (id : Nat)

/-- Modelled from the spec: a variable declaration of the syntax tree, reduced to what lines
487-519 use: the unique name, the qualifier bit set and row count of its type, the
annotations and the optional initializer (`nullptr` is `none`). -/
structure variable_declaration_node (F : Type) where
  unique_name : String
  qualifiers : Nat
  rows : Nat
  annotation_list : List (String × String)
  initializer_expression : Option (expression_node F)

/-- The three qualifier constants of `type_node` that the source names; their values are
defined outside `runtime.cpp` and are parameters here. -/
structure type_qualifiers where
  qualifier_uniform : Nat
  qualifier_static : Nat
  qualifier_const : Nat

/-- Modelled from the spec: `type.has_qualifier(qualifier)`, true when every bit of
`qualifier` is in the set. -/
def has_qualifier (qualifiers qualifier : Nat) : Bool :=
  (qualifiers &&& qualifier) == qualifier

/-- The indexed conversions `data.as<int>(i)`, `data.as<unsigned int>(i)` and
`data.as<float>(i)` of a preset value, defined outside `runtime.cpp`. -/
structure preset_value_access (F : Type) where
  as_int : List String → Nat → Int
  as_unsigned_int : List String → Nat → Nat
  as_float : List String → Nat → F

/-- One iteration of the loop at lines 500-515: slot `i` of the literal is overwritten with
the preset's value, converted as the literal's base datatype asks. -/
def rewrite_literal_slot {F : Type} (va : preset_value_access F) (data : List String)
    (node : literal_expression_node F) (i : Nat) : literal_expression_node F :=
  match node.basetype with
  | uniform_datatype.int_ =>
    { node with values := node.values.set i (literal_value.value_int (va.as_int data i)) }
  | uniform_datatype.bool_ =>
    { node with
      values := node.values.set i (literal_value.value_uint (va.as_unsigned_int data i)) }
  | uniform_datatype.uint_ =>
    { node with
      values := node.values.set i (literal_value.value_uint (va.as_unsigned_int data i)) }
  | uniform_datatype.float_ =>
    { node with values := node.values.set i (literal_value.value_float (va.as_float data i)) }

/-- The loop at lines 500-515, over `i < min(rows, data.size())`. -/
def rewrite_literal {F : Type} (va : preset_value_access F) (data : List String) (rows : Nat)
    (node : literal_expression_node F) : literal_expression_node F :=
  (List.range (min rows data.length)).foldl (rewrite_literal_slot va data) node

/-- The body of the loop over `ast.variables` (lines 489-518) for one variable. `preset_get`
is `preset.get(section, key).data()` on the selected preset file, `filename` the effect
file's `path.filename().string()`. -/
def bake_variable {F : Type} (q : type_qualifiers) (va : preset_value_access F)
    (preset_get : String → String → List String) (filename : String)
    (v : variable_declaration_node F) : variable_declaration_node F :=
  if !has_qualifier v.qualifiers q.qualifier_uniform then v
  else
    match v.initializer_expression with
    | none => v
    | some (expression_node.other_expression _) => v
    | some (expression_node.literal_expression node) =>
      if (annotations_find v.annotation_list "source").isSome then v
      else
        { v with
          initializer_expression := some (expression_node.literal_expression
            (rewrite_literal va (preset_get filename v.unique_name) v.rows node))
          qualifiers := (v.qualifiers ^^^ q.qualifier_uniform) |||
            (q.qualifier_static ||| q.qualifier_const) }

/-- Lines 483-520: the rewrite of the variables of one syntax tree, done only when
`_performance_mode` is set and `_current_preset >= 0`. -/
def performance_mode_pass {F : Type} (q : type_qualifiers) (va : preset_value_access F)
    (preset_get : String → String → List String) (filename : String)
    (performance_mode : Bool) (current_preset : Int)
    (vars : List (variable_declaration_node F)) : List (variable_declaration_node F) :=
  if performance_mode && decide (current_preset ≥ 0) then
    vars.map (bake_variable q va preset_get filename)
  else vars

/-- The qualifier values used to evaluate the pass on a concrete input: bit 2 for `uniform`,
bit 1 for `static`, bit 8 for `const`. -/
def sample_qualifiers : type_qualifiers where
  qualifier_uniform := 4
  qualifier_static := 2
  qualifier_const := 256

/-- Conversions for evaluating the pass on a concrete input: the length of the text stands
for its value. -/
def sample_preset_access : preset_value_access Nat where
  as_int := fun data i => ((data.getD i "").length : Int)
  as_unsigned_int := fun data i => (data.getD i "").length
  as_float := fun data i => (data.getD i "").length

/-- A `uniform float` variable with a literal initializer and no `source` annotation; its
qualifier set holds `uniform` and bit 4. -/
def sample_tweakable : variable_declaration_node Nat where
  unique_name := "Effect_fx_fStrength"
  qualifiers := 20
  rows := 1
  annotation_list := [("ui_type", "drag")]
  initializer_expression := some (expression_node.literal_expression
    { basetype := uniform_datatype.float_, values := [literal_value.value_float 0] })

/-! ## The compilation loop of `reload` (`runtime.cpp` lines 464-557 and 614-642) -/

/-- Modelled from the spec: the `texture` record of `runtime_objects.hpp` (not part of the
sources), reduced to the name and the annotation map. -/
structure texture where
  name : String
  annotations : List (String × String)
  deriving DecidableEq

/-- What the external steps do with one discovered effect file: whether the preprocessor run
(`pp.run`), the parser run (`pa.run`) and the backend (`update_effect`) succeed, the text each
of them appends to `_errors`, and the objects `update_effect` adds to `_uniforms`, `_textures`
and `_techniques` before it returns, whether it then reports success or failure. -/
structure effect_file where
  path : String
  preprocess_ok : Bool
  preprocess_errors : String
  parse_ok : Bool
  parse_errors : String
  update_ok : Bool
  update_errors : String
  new_uniforms : List uniform
  new_textures : List texture
  new_techniques : List technique
  deriving DecidableEq

/-- The members of the runtime that the compilation loop reads and writes. -/
structure reload_state where
  uniforms : List uniform
  textures : List texture
  techniques : List technique
  errors : String
  effect_files : List String
  deriving DecidableEq

/-- The members `on_reset_effect` (lines 194-203) clears, among those of `reload_state`. -/
def on_reset_effect (s : reload_state) : reload_state :=
  { s with uniforms := [], textures := [], techniques := [], errors := "" }

/-- The end of `load_effect` (lines 614-642): a failed preprocessor run appends its errors
and returns `false`; otherwise the path is recorded and the result is the parser's, which
writes its messages to `_errors` itself. -/
def load_effect (s : reload_state) (f : effect_file) : Bool × reload_state :=
  if !f.preprocess_ok then
    (false, { s with errors := s.errors ++ f.preprocess_errors })
  else
    (f.parse_ok,
      { s with effect_files := s.effect_files ++ [f.path], errors := s.errors ++ f.parse_errors })

/-- The call `update_effect(ast, _errors)`: the backend adds objects and messages, then
reports success or failure. -/
def update_effect (s : reload_state) (f : effect_file) : Bool × reload_state :=
  (f.update_ok,
    { s with
      uniforms := s.uniforms ++ f.new_uniforms
      textures := s.textures ++ f.new_textures
      techniques := s.techniques ++ f.new_techniques
      errors := s.errors ++ f.update_errors })

/-- The test `annotations.count("__FILE__")`. -/
def is_tagged (annotations : List (String × String)) : Bool :=
  (annotations_find annotations "__FILE__").isSome

/-- Lines 529-532 for one variable. -/
def tag_uniform (path : String) (v : uniform) : uniform :=
  if !is_tagged v.annotations then { v with annotations := ("__FILE__", path) :: v.annotations }
  else v

/-- Lines 536-539 for one texture. -/
def tag_texture (path : String) (t : texture) : texture :=
  if !is_tagged t.annotations then { t with annotations := ("__FILE__", path) :: t.annotations }
  else t

/-- Lines 543-554 for one technique: an untagged technique is tagged and its state is
initialised from its annotations (`annotations[key]` read as the annotation's text, empty
when absent; `as_bool` and `as_int` are the variant conversions). -/
def tag_technique (as_bool : String → Bool) (as_int : String → Int) (path : String)
    (t : technique) : technique :=
  if !is_tagged t.annotations then
    { t with
      annotations := ("__FILE__", path) :: t.annotations
      enabled := as_bool ((annotations_find t.annotations "enabled").getD "")
      timeleft := as_int ((annotations_find t.annotations "timeout").getD "")
      timeout := as_int ((annotations_find t.annotations "timeout").getD "")
      toggle_key := as_int ((annotations_find t.annotations "toggle").getD "")
      toggle_key_ctrl := as_bool ((annotations_find t.annotations "togglectrl").getD "")
      toggle_key_shift := as_bool ((annotations_find t.annotations "toggleshift").getD "")
      toggle_key_alt := as_bool ((annotations_find t.annotations "togglealt").getD "")
      toggle_time := as_int ((annotations_find t.annotations "toggletime").getD "") }
  else t

/-- The body of the loop over the files (lines 476-555): `continue` after a failed
`load_effect`, `continue` after a failed `update_effect`, otherwise the three tagging loops
over the whole of `_uniforms`, `_textures` and `_techniques`. The performance-mode rewrite
changes the syntax tree only and is part of what `update_effect` is given. -/
def reload_file (as_bool : String → Bool) (as_int : String → Int) (s : reload_state)
    (f : effect_file) : reload_state :=
  if !(load_effect s f).1 then (load_effect s f).2
  else if !(update_effect (load_effect s f).2 f).1 then (update_effect (load_effect s f).2 f).2
  else
    { (update_effect (load_effect s f).2 f).2 with
      uniforms := (update_effect (load_effect s f).2 f).2.uniforms.map (tag_uniform f.path)
      textures := (update_effect (load_effect s f).2 f).2.textures.map (tag_texture f.path)
      techniques := (update_effect (load_effect s f).2 f).2.techniques.map
        (tag_technique as_bool as_int f.path) }

/-- Lines 466-557 of `reload`: the reset, then the loop over the discovered files (`files` is
the files of all search paths, in the order the two nested loops visit them). The texture
and preset loading that follow leave the annotations as they are; `reload_returns` adds
them. -/
def reload (as_bool : String → Bool) (as_int : String → Int) (s : reload_state)
    (files : List effect_file) : reload_state :=
  files.foldl (reload_file as_bool as_int) (on_reset_effect s)

/-- A file compiles when all three external steps succeed. -/
def compiles (f : effect_file) : Bool :=
  f.preprocess_ok && f.parse_ok && f.update_ok

/-- An untagged variable named `name`. -/
def uniform_named (name : String) : uniform where
  unique_name := name
  basetype := uniform_datatype.float_
  rows := 1
  columns := 1
  annotations := []

/-- A file that compiles and contributes one variable and one technique. -/
def sample_effect_file (path variable_name technique_name : String) : effect_file where
  path := path
  preprocess_ok := true
  preprocess_errors := ""
  parse_ok := true
  parse_errors := ""
  update_ok := true
  update_errors := ""
  new_uniforms := [uniform_named variable_name]
  new_textures := []
  new_techniques := [technique_named technique_name false]

/-- A file whose backend step adds one variable and then fails with a message. -/
def sample_backend_failure : effect_file where
  path := "shaders/A.fx"
  preprocess_ok := true
  preprocess_errors := ""
  parse_ok := true
  parse_errors := ""
  update_ok := false
  update_errors := "A.fx(3, 1): error: compilation failed\n"
  new_uniforms := [uniform_named "A_fx_fAmount"]
  new_textures := []
  new_techniques := []

/-- The runtime before any effect is loaded. -/
def empty_reload_state : reload_state where
  uniforms := []
  textures := []
  techniques := []
  errors := ""
  effect_files := []

end reshade

/-! # Theorems -/

namespace reshade

/-! ## Machine arithmetic -/

theorem sub_assign_unsigned_exact (timeleft ms : Int)
    (hlo : -2147483648 ≤ timeleft - ms) (hhi : timeleft - ms < 2147483648) :
    sub_assign_unsigned timeleft ms = timeleft - ms := by
  unfold sub_assign_unsigned to_int to_unsigned_int
  split_ifs <;> omega

theorem sub_assign_unsigned_range (timeleft ms : Int) :
    -2147483648 ≤ sub_assign_unsigned timeleft ms ∧
      sub_assign_unsigned timeleft ms < 2147483648 := by
  unfold sub_assign_unsigned to_int to_unsigned_int
  split_ifs <;> omega

/-! ## The toggle step -/

theorem toggle_of_absolute_time (t : technique) (f : frame)
    (h : absolute_time_matches t f = true) :
    toggle t f =
      ({ t with enabled := !t.enabled, timeleft := t.timeout, toggle_time := 0 },
        [trigger.absolute_time]) := by
  simp [toggle, h]

theorem toggle_of_countdown (t : technique) (f : frame)
    (h : absolute_time_matches t f = false) (hpos : t.timeleft > 0) :
    toggle t f =
      (if sub_assign_unsigned t.timeleft (milliseconds_count f.last_frame_duration) ≤ 0 then
        ({ t with enabled := !t.enabled, timeleft := 0 }, [trigger.countdown])
      else
        ({ t with timeleft :=
            sub_assign_unsigned t.timeleft (milliseconds_count f.last_frame_duration) }, [])) := by
  simp [toggle, h, hpos]

theorem toggle_of_idle (t : technique) (f : frame)
    (h : absolute_time_matches t f = false) (hle : t.timeleft ≤ 0) :
    toggle t f =
      (if hotkey_pressed t f then
        ({ t with enabled := !t.enabled, timeleft := t.timeout }, [trigger.hotkey])
      else (t, [])) := by
  have hn : ¬ t.timeleft > 0 := by omega
  simp [toggle, h, hn]

theorem absolute_time_matches_iff (t : technique) (f : frame) :
    absolute_time_matches t f = true ↔ t.toggle_time ≠ 0 ∧ t.toggle_time = f.date3 := by
  simp [absolute_time_matches]

theorem toggle_cases (t : technique) (f : frame) :
    (absolute_time_matches t f = true ∧
      toggle t f =
        ({ t with enabled := !t.enabled, timeleft := t.timeout, toggle_time := 0 },
          [trigger.absolute_time])) ∨
    (absolute_time_matches t f = false ∧ t.timeleft > 0 ∧
      sub_assign_unsigned t.timeleft (milliseconds_count f.last_frame_duration) ≤ 0 ∧
      toggle t f = ({ t with enabled := !t.enabled, timeleft := 0 }, [trigger.countdown])) ∨
    (absolute_time_matches t f = false ∧ t.timeleft > 0 ∧
      0 < sub_assign_unsigned t.timeleft (milliseconds_count f.last_frame_duration) ∧
      toggle t f =
        ({ t with timeleft :=
            sub_assign_unsigned t.timeleft (milliseconds_count f.last_frame_duration) }, [])) ∨
    (absolute_time_matches t f = false ∧ t.timeleft ≤ 0 ∧ hotkey_pressed t f = true ∧
      toggle t f = ({ t with enabled := !t.enabled, timeleft := t.timeout }, [trigger.hotkey])) ∨
    (absolute_time_matches t f = false ∧ t.timeleft ≤ 0 ∧ hotkey_pressed t f = false ∧
      toggle t f = (t, [])) := by
  cases habs : absolute_time_matches t f with
  | true => exact Or.inl ⟨rfl, toggle_of_absolute_time t f habs⟩
  | false =>
    right
    by_cases hpos : t.timeleft > 0
    · by_cases hd : sub_assign_unsigned t.timeleft (milliseconds_count f.last_frame_duration) ≤ 0
      · left
        refine ⟨rfl, hpos, hd, ?_⟩
        rw [toggle_of_countdown t f habs hpos, if_pos hd]
      · right; left
        refine ⟨rfl, hpos, by omega, ?_⟩
        rw [toggle_of_countdown t f habs hpos, if_neg hd]
    · have hle : t.timeleft ≤ 0 := by omega
      right; right
      cases hk : hotkey_pressed t f with
      | true =>
        left
        refine ⟨rfl, hle, rfl, ?_⟩
        rw [toggle_of_idle t f habs hle, hk]
        rfl
      | false =>
        right
        refine ⟨rfl, hle, rfl, ?_⟩
        rw [toggle_of_idle t f habs hle, hk]
        rfl

/-- C1: in every frame the toggle step flips `enabled` at most once, through the first of
absolute time, countdown, hotkey whose condition holds; a frame that differs only in the
input provider gives the same result whenever the absolute-time trigger matches or
`timeleft > 0` before the step. -/
theorem toggle_applies_at_most_one_trigger (t : technique) (f : frame) :
    (toggle t f).2.length ≤ 1 ∧
    ((toggle t f).2 = [] → (toggle t f).1.enabled = t.enabled) ∧
    ((toggle t f).2 ≠ [] → (toggle t f).1.enabled = !t.enabled) ∧
    (absolute_time_matches t f = true → (toggle t f).2 = [trigger.absolute_time]) ∧
    (trigger.countdown ∈ (toggle t f).2 →
      absolute_time_matches t f = false ∧ t.timeleft > 0) ∧
    (trigger.hotkey ∈ (toggle t f).2 →
      absolute_time_matches t f = false ∧ t.timeleft ≤ 0 ∧ hotkey_pressed t f = true) ∧
    (∀ g : frame, g.date3 = f.date3 → g.last_frame_duration = f.last_frame_duration →
      (absolute_time_matches t f = true ∨ t.timeleft > 0) → toggle t g = toggle t f) := by
  refine ⟨?_, ?_, ?_, ?_, ?_, ?_, ?_⟩
  · rcases toggle_cases t f with h | h | h | h | h <;> simp [h]
  · rcases toggle_cases t f with h | h | h | h | h <;> simp [h]
  · rcases toggle_cases t f with h | h | h | h | h <;> simp [h]
  · intro h
    rw [toggle_of_absolute_time t f h]
  · rcases toggle_cases t f with h | h | h | h | h <;> simp [h]
  · rcases toggle_cases t f with h | h | h | h | h <;> simp [h]
  · intro g hd hl hcase
    have hm : absolute_time_matches t g = absolute_time_matches t f := by
      simp [absolute_time_matches, hd]
    cases habs : absolute_time_matches t f with
    | true =>
      rw [toggle_of_absolute_time t f habs, toggle_of_absolute_time t g (hm.trans habs)]
    | false =>
      have hpos : t.timeleft > 0 := by
        rcases hcase with h | h
        · rw [habs] at h
          exact absurd h (by decide)
        · exact h
      rw [toggle_of_countdown t f habs hpos, toggle_of_countdown t g (hm.trans habs) hpos, hl]

/-- C2: when `toggle_time` is nonzero and equals the current seconds since midnight, the
toggle step flips `enabled`, sets `timeleft` to `timeout` and `toggle_time` to `0`, for every
value of `timeleft` and every state of the input provider. -/
theorem toggle_absolute_time_trigger (t : technique) (f : frame)
    (hnz : t.toggle_time ≠ 0) (heq : t.toggle_time = f.date3) :
    (toggle t f).1 =
      { t with enabled := !t.enabled, timeleft := t.timeout, toggle_time := 0 } := by
  rw [toggle_of_absolute_time t f ((absolute_time_matches_iff t f).2 ⟨hnz, heq⟩)]

theorem toggle_absolute_time_trigger_witness :
    sample_scheduled.toggle_time ≠ 0 ∧ sample_scheduled.toggle_time = sample_frame.date3 ∧
    (toggle sample_scheduled sample_frame).1 =
      { sample_scheduled with
        enabled := !sample_scheduled.enabled, timeleft := sample_scheduled.timeout,
        toggle_time := 0 } :=
  ⟨by decide, by decide,
    toggle_absolute_time_trigger sample_scheduled sample_frame (by decide) (by decide)⟩

theorem apply_event_toggle_time_zero (t : technique) (e : session_event)
    (h : t.toggle_time = 0) :
    (apply_event t e).1.toggle_time = 0 ∧ absolute_time_fired (apply_event t e).2 = false := by
  cases e with
  | set_enabled b => exact ⟨h, rfl⟩
  | present f =>
    have habs : absolute_time_matches t f = false := by simp [absolute_time_matches, h]
    simp only [apply_event]
    rcases toggle_cases t f with c | c | c | c | c
    · rw [habs] at c
      exact absurd c.1 (by decide)
    all_goals simp [c, h, absolute_time_fired]

theorem apply_event_fired_clears (t : technique) (e : session_event)
    (h : absolute_time_fired (apply_event t e).2 = true) :
    (apply_event t e).1.toggle_time = 0 := by
  cases e with
  | set_enabled b => simp [apply_event, absolute_time_fired] at h
  | present f =>
    simp only [apply_event] at h ⊢
    rcases toggle_cases t f with c | c | c | c | c
    · simp [c]
    all_goals simp [c, absolute_time_fired] at h

theorem apply_events_toggle_time_zero (es : List session_event) :
    ∀ t : technique, t.toggle_time = 0 →
      (apply_events t es).1.toggle_time = 0 ∧
      (apply_events t es).2.filter absolute_time_fired = [] := by
  induction es with
  | nil => intro t h; exact ⟨h, rfl⟩
  | cons e es ih =>
    intro t h
    have h1 := apply_event_toggle_time_zero t e h
    have h2 := ih (apply_event t e).1 h1.1
    refine ⟨h2.1, ?_⟩
    simp only [apply_events]
    rw [List.filter_cons_of_neg (by simp [h1.2])]
    exact h2.2

theorem apply_events_fired_length (es : List session_event) :
    ∀ t : technique, ((apply_events t es).2.filter absolute_time_fired).length ≤ 1 := by
  induction es with
  | nil => intro t; simp [apply_events]
  | cons e es ih =>
    intro t
    simp only [apply_events]
    cases hf : absolute_time_fired (apply_event t e).2 with
    | true =>
      have hz := apply_events_toggle_time_zero es _ (apply_event_fired_clears t e hf)
      rw [List.filter_cons_of_pos (by simp [hf]), hz.2]
      simp
    | false =>
      rw [List.filter_cons_of_neg (by simp [hf])]
      exact ih _

/-- C3: over every sequence of frames (and of overwrites of `enabled` by the overlay or a
preset load) applied to a technique, the absolute-time branch runs in at most one frame: a
frame in which it runs leaves `toggle_time` at `0`, and from `toggle_time = 0` it stays `0` and
the branch never runs, whatever the clock shows. -/
theorem absolute_time_fires_at_most_once (t : technique) (es : List session_event) :
    ((apply_events t es).2.filter absolute_time_fired).length ≤ 1 ∧
    (∀ f : frame,
      absolute_time_fired (toggle t f).2 = true → (toggle t f).1.toggle_time = 0) ∧
    (t.toggle_time = 0 →
      (apply_events t es).1.toggle_time = 0 ∧
      (apply_events t es).2.filter absolute_time_fired = []) :=
  ⟨apply_events_fired_length es t,
    fun f h => apply_event_fired_clears t (session_event.present f) h,
    apply_events_toggle_time_zero es t⟩

/-- C4 (as stated, refuted): with `timeleft = 5000` and a frame of `2^32` milliseconds the
source leaves the technique as it was, while the specified countdown flips it and clears
`timeleft`. -/
theorem countdown_as_specified_fails :
    absolute_time_matches sample_long_countdown sample_frame_overlong = false ∧
    sample_long_countdown.timeleft > 0 ∧
    (toggle sample_long_countdown sample_frame_overlong).1 = sample_long_countdown ∧
    countdown_as_specified sample_long_countdown sample_frame_overlong =
      { sample_long_countdown with enabled := true, timeleft := 0 } ∧
    (toggle sample_long_countdown sample_frame_overlong).1 ≠
      countdown_as_specified sample_long_countdown sample_frame_overlong := by
  decide

/-- C4 (amended): with `timeleft > 0`, no absolute-time match, and `timeleft` minus the frame
duration in whole milliseconds representable as a 32-bit `int`, the toggle step decrements
`timeleft` by that duration; a result `<= 0` flips `enabled` and sets `timeleft` to `0`,
otherwise `enabled` is unchanged and `timeleft` is the decremented value. -/
theorem toggle_countdown (t : technique) (f : frame)
    (habs : absolute_time_matches t f = false) (hpos : t.timeleft > 0)
    (hlo : -2147483648 ≤ t.timeleft - milliseconds_count f.last_frame_duration)
    (hhi : t.timeleft - milliseconds_count f.last_frame_duration < 2147483648) :
    (toggle t f).1 = countdown_as_specified t f ∧
    (t.timeleft - milliseconds_count f.last_frame_duration ≤ 0 →
      (toggle t f).1.enabled = (!t.enabled) ∧ (toggle t f).1.timeleft = 0) ∧
    (0 < t.timeleft - milliseconds_count f.last_frame_duration →
      (toggle t f).1.enabled = t.enabled ∧
      (toggle t f).1.timeleft = t.timeleft - milliseconds_count f.last_frame_duration) := by
  have hx := sub_assign_unsigned_exact t.timeleft _ hlo hhi
  rw [toggle_of_countdown t f habs hpos, hx]
  unfold countdown_as_specified
  refine ⟨?_, ?_, ?_⟩
  · split_ifs <;> rfl
  · intro h
    rw [if_pos h]
    exact ⟨rfl, rfl⟩
  · intro h
    rw [if_neg (by omega)]
    exact ⟨rfl, rfl⟩

theorem toggle_countdown_witness :
    absolute_time_matches sample_counting sample_frame_noon = false ∧
    sample_counting.timeleft > 0 ∧
    (toggle sample_counting sample_frame_noon).1 = { sample_counting with timeleft := 4 } ∧
    (toggle sample_counting sample_frame_noon).1 =
      countdown_as_specified sample_counting sample_frame_noon :=
  ⟨by decide, by decide, by decide,
    (toggle_countdown sample_counting sample_frame_noon
      (by decide) (by decide) (by decide) (by decide)).1⟩

/-- C5: with no absolute-time match and `timeleft <= 0`, a pressed hotkey (keycode with its
ctrl/shift/alt flags) flips `enabled` and sets `timeleft` to `timeout`; when it is not pressed
the step leaves the technique, hence `enabled`, `timeleft` and `toggle_time`, unchanged. -/
theorem toggle_hotkey (t : technique) (f : frame)
    (habs : absolute_time_matches t f = false) (hle : t.timeleft ≤ 0) :
    (f.is_key_pressed t.toggle_key t.toggle_key_ctrl t.toggle_key_shift t.toggle_key_alt = true →
      (toggle t f).1 = { t with enabled := !t.enabled, timeleft := t.timeout }) ∧
    (f.is_key_pressed t.toggle_key t.toggle_key_ctrl t.toggle_key_shift t.toggle_key_alt = false →
      (toggle t f).1 = t) := by
  rw [toggle_of_idle t f habs hle]
  unfold hotkey_pressed
  constructor
  · intro h
    rw [h]
    rfl
  · intro h
    rw [h]
    rfl

theorem toggle_hotkey_witness :
    absolute_time_matches sample_idle sample_frame_noon = false ∧
    sample_idle.timeleft ≤ 0 ∧
    (toggle sample_idle sample_frame_noon).1 =
      { sample_idle with enabled := !sample_idle.enabled, timeleft := sample_idle.timeout } :=
  ⟨by decide, by decide,
    (toggle_hotkey sample_idle sample_frame_noon (by decide) (by decide)).1 (by decide)⟩

theorem timeleft_writes_no_render (uniforms : List uniform) (t : technique) :
    (timeleft_writes uniforms t).filter is_render = [] := by
  rw [List.filter_eq_nil_iff]
  intro c hc
  unfold timeleft_writes at hc
  rw [List.mem_filterMap] at hc
  obtain ⟨v, _, hv⟩ := hc
  cases hs : annotations_find v.annotations "source" with
  | none => simp [hs] at hv
  | some source =>
    by_cases hsrc : source = "timeleft"
    · simp [hs, hsrc] at hv
      subst hv
      simp [is_render]
    · simp [hs, hsrc] at hv

theorem present_technique_renders (uniforms : List uniform) (f : frame)
    (render_duration : technique → Nat) (t : technique) :
    (present_technique uniforms f render_duration t).2.filter is_render =
      if (toggle t f).1.enabled then [backend_call.render_technique (toggle t f).1] else [] := by
  unfold present_technique
  cases h : (toggle t f).1.enabled with
  | true => simp [List.filter_append, timeleft_writes_no_render, is_render]
  | false => simp

theorem present_techniques_renders (uniforms : List uniform) (f : frame)
    (render_duration : technique → Nat) (ts : List technique) :
    (present_techniques uniforms f render_duration ts).2.filter is_render =
      ((ts.map (fun t => (toggle t f).1)).filter (fun t => t.enabled)).map
        backend_call.render_technique := by
  induction ts with
  | nil => rfl
  | cons t ts ih =>
    simp only [present_techniques, List.filter_append, present_technique_renders, ih,
      List.map_cons]
    cases h : (toggle t f).1.enabled with
    | true => simp [h]
    | false => simp [h]

/-- C6: in every frame a technique is executed exactly when it is enabled after the toggle
step of that frame (once, and the executed techniques of the whole loop are the enabled ones in
collection order); a technique that is disabled after the step has its average duration
cleared and causes no backend call at all, so no `timeleft` variable is written for it. -/
theorem present_technique_executes_iff_enabled (uniforms : List uniform) (f : frame)
    (render_duration : technique → Nat) (t : technique) (ts : List technique) :
    (backend_call.render_technique (toggle t f).1 ∈
        (present_technique uniforms f render_duration t).2 ↔ (toggle t f).1.enabled = true) ∧
    ((present_technique uniforms f render_duration t).2.filter is_render =
      if (toggle t f).1.enabled then [backend_call.render_technique (toggle t f).1] else []) ∧
    ((toggle t f).1.enabled = false →
      (present_technique uniforms f render_duration t).1 =
        { (toggle t f).1 with average_duration := [] } ∧
      (present_technique uniforms f render_duration t).2 = []) ∧
    ((toggle t f).1.enabled = true →
      (present_technique uniforms f render_duration t).2 =
        timeleft_writes uniforms (toggle t f).1 ++
          [backend_call.render_technique (toggle t f).1]) ∧
    ((present_techniques uniforms f render_duration ts).2.filter is_render =
      ((ts.map (fun t => (toggle t f).1)).filter (fun t => t.enabled)).map
        backend_call.render_technique) := by
  refine ⟨?_, present_technique_renders uniforms f render_duration t, ?_, ?_,
    present_techniques_renders uniforms f render_duration ts⟩
  · unfold present_technique
    cases h : (toggle t f).1.enabled with
    | true => simp
    | false => simp
  · intro h
    unfold present_technique
    simp [h]
  · intro h
    unfold present_technique
    simp [h]

/-! ## Preset persistence -/

theorem technique_less_eq_false (order : List String) (a b : technique) :
    technique_less order b a = false ↔
      order_position order a.name ≤ order_position order b.name := by
  simp [technique_less]

theorem std_sort_result_keys (order : List String) (ts sorted : List technique)
    (h : std_sort_result (technique_less order) ts sorted) :
    (sorted.map (fun t => order_position order t.name)).Sorted (fun x y => x ≤ y) := by
  unfold List.Sorted
  rw [List.pairwise_map]
  exact h.2.imp (fun {a b} hab => (technique_less_eq_false order a b).1 hab)

theorem stable_sort_is_std_sort_result (order : List String) (ts : List technique) :
    std_sort_result (technique_less order) ts (stable_sort_techniques order ts) := by
  have htotal : IsTotal technique
      (fun a b => order_position order a.name ≤ order_position order b.name) :=
    ⟨fun a b => Nat.le_total _ _⟩
  have htrans : IsTrans technique
      (fun a b => order_position order a.name ≤ order_position order b.name) :=
    ⟨fun _ _ _ hab hbc => Nat.le_trans hab hbc⟩
  refine ⟨List.perm_insertionSort _ ts, ?_⟩
  have hs := List.sorted_insertionSort
    (fun a b : technique => order_position order a.name ≤ order_position order b.name) ts
  exact List.Pairwise.imp (fun {a b} hab => (technique_less_eq_false order a b).2 hab) hs

theorem load_preset_techniques_total (order : List String) (ts : List technique) :
    ∃ after, load_preset_techniques order ts after :=
  ⟨_, stable_sort_techniques order ts, stable_sort_is_std_sort_result order ts, rfl⟩

theorem std_sort_result_keys_unique (order : List String) (ts s1 s2 : List technique)
    (h1 : std_sort_result (technique_less order) ts s1)
    (h2 : std_sort_result (technique_less order) ts s2) :
    s1.map (fun t => order_position order t.name) =
      s2.map (fun t => order_position order t.name) :=
  List.eq_of_perm_of_sorted ((h1.1.trans h2.1.symm).map _)
    (std_sort_result_keys order ts s1 h1) (std_sort_result_keys order ts s2 h2)

theorem set_enabled_name (order : List String) (t : technique) :
    (set_enabled_from_order order t).name = t.name := rfl

theorem clear_enabled_set_enabled (order : List String) (t : technique) :
    clear_enabled (set_enabled_from_order order t) = clear_enabled t := rfl

theorem mem_order_iff_position (order : List String) (name : String) :
    name ∈ order ↔ order_position order name < order.length :=
  List.indexOf_lt_length.symm

theorem load_preset_techniques_sorted (order : List String) (ts after : List technique)
    (h : load_preset_techniques order ts after) :
    after.Pairwise (fun a b => order_position order a.name ≤ order_position order b.name) := by
  obtain ⟨sorted, hs, rfl⟩ := h
  rw [List.pairwise_map]
  exact hs.2.imp (fun {a b} hab => (technique_less_eq_false order a b).1 hab)

theorem load_preset_techniques_perm (order : List String) (ts after : List technique)
    (h : load_preset_techniques order ts after) :
    (after.map clear_enabled).Perm (ts.map clear_enabled) := by
  obtain ⟨sorted, hs, rfl⟩ := h
  rw [List.map_map]
  have : clear_enabled ∘ set_enabled_from_order order = clear_enabled := by
    funext t
    rfl
  rw [this]
  exact hs.1.map _

theorem load_preset_example (s b v : technique) (hs : s.name = "Sharpen")
    (hb : b.name = "Bloom") (hv : v.name = "Vignette") (after : List technique)
    (h : load_preset_techniques ["Bloom", "Sharpen"] [s, b, v] after) :
    after = [{ b with enabled := true }, { s with enabled := true },
      { v with enabled := false }] := by
  obtain ⟨sorted, hsort, rfl⟩ := h
  have ks : order_position ["Bloom", "Sharpen"] s.name = 1 := by rw [hs]; decide
  have kb : order_position ["Bloom", "Sharpen"] b.name = 0 := by rw [hb]; decide
  have kv : order_position ["Bloom", "Sharpen"] v.name = 2 := by rw [hv]; decide
  have hkeys : sorted.map (fun t => order_position ["Bloom", "Sharpen"] t.name) = [0, 1, 2] := by
    refine List.eq_of_perm_of_sorted ?_ (std_sort_result_keys _ _ _ hsort) (by decide)
    have hp := hsort.1.map (fun t => order_position ["Bloom", "Sharpen"] t.name)
    simp only [List.map_cons, List.map_nil, ks, kb, kv] at hp
    exact hp.trans (by decide)
  have hmem : ∀ t ∈ sorted, t = s ∨ t = b ∨ t = v := by
    intro t ht
    have := hsort.1.subset ht
    simpa using this
  have hlen : sorted.length = 3 := hsort.1.length_eq
  obtain ⟨x, y, z, rfl⟩ := List.length_eq_three.1 hlen
  have hk := hkeys
  have hm := hmem
  clear hkeys hmem
  · simp only [List.map_cons, List.map_nil, List.cons.injEq, and_true] at hk
    obtain ⟨hx, hy, hz⟩ := hk
    have ex : x = b := by
      rcases hm x (by simp) with e | e | e
      · rw [e, ks] at hx; omega
      · exact e
      · rw [e, kv] at hx; omega
    have ey : y = s := by
      rcases hm y (by simp) with e | e | e
      · exact e
      · rw [e, kb] at hy; omega
      · rw [e, kv] at hy; omega
    have ez : z = v := by
      rcases hm z (by simp) with e | e | e
      · rw [e, ks] at hz; omega
      · rw [e, kb] at hz; omega
      · exact e
    subst ex ey ez
    simp [set_enabled_from_order, hs, hb, hv]

/-- C7: `load_preset` always yields a result; every result is a permutation of the collection
before (the `enabled` flags apart, which it overwrites), every technique whose name is in the
list precedes every technique whose name is not, and the techniques follow the order of the
first position of their names in the list. For the list `[Bloom, Sharpen]` and techniques
`[Sharpen, Bloom, Vignette]` the result is `[Bloom, Sharpen, Vignette]`. -/
theorem load_preset_reorders_by_list (order : List String) (ts : List technique) :
    (∃ after, load_preset_techniques order ts after) ∧
    (∀ after, load_preset_techniques order ts after →
      (after.map clear_enabled).Perm (ts.map clear_enabled) ∧
      after.Pairwise (fun a b => b.name ∈ order → a.name ∈ order) ∧
      after.Pairwise (fun a b => order.indexOf a.name ≤ order.indexOf b.name)) ∧
    (∀ s b v : technique, s.name = "Sharpen" → b.name = "Bloom" → v.name = "Vignette" →
      ∀ after, load_preset_techniques ["Bloom", "Sharpen"] [s, b, v] after →
        after.map (fun t => t.name) = ["Bloom", "Sharpen", "Vignette"]) := by
  refine ⟨load_preset_techniques_total order ts, ?_, ?_⟩
  · intro after h
    refine ⟨load_preset_techniques_perm order ts after h, ?_,
      load_preset_techniques_sorted order ts after h⟩
    refine (load_preset_techniques_sorted order ts after h).imp ?_
    intro a b hab hb
    rw [mem_order_iff_position] at hb ⊢
    omega
  · intro s b v hs hb hv after h
    rw [load_preset_example s b v hs hb hv after h]
    simp [hs, hb, hv]

theorem filter_orderedInsert_position (order : List String) (k : Nat) (a : technique)
    (l : List technique) :
    (List.orderedInsert
        (fun x y : technique => order_position order x.name ≤ order_position order y.name)
        a l).filter (fun t => order_position order t.name == k) =
      (a :: l).filter (fun t => order_position order t.name == k) := by
  induction l with
  | nil => rfl
  | cons b l ih =>
    by_cases hab : order_position order a.name ≤ order_position order b.name
    · rw [List.orderedInsert, if_pos hab]
    · rw [List.orderedInsert, if_neg hab, List.filter_cons, ih]
      by_cases ha : order_position order a.name = k
      · have hb : ¬ order_position order b.name = k := by omega
        simp [List.filter_cons, ha, hb]
      · simp [List.filter_cons, ha]

theorem filter_stable_sort_position (order : List String) (k : Nat) (ts : List technique) :
    (stable_sort_techniques order ts).filter (fun t => order_position order t.name == k) =
      ts.filter (fun t => order_position order t.name == k) := by
  unfold stable_sort_techniques
  induction ts with
  | nil => rfl
  | cons a l ih =>
    rw [List.insertionSort, filter_orderedInsert_position, List.filter_cons, ih,
      List.filter_cons]

theorem stable_sort_keeps_relative_order (order : List String) (ts : List technique) :
    keeps_relative_order order ts
      ((stable_sort_techniques order ts).map (set_enabled_from_order order)) := by
  intro k
  rw [List.filter_map, List.map_map]
  have h1 : ((fun t : technique => order_position order t.name == k) ∘
      set_enabled_from_order order) = (fun t : technique => order_position order t.name == k) := by
    funext t
    rfl
  have h2 : clear_enabled ∘ set_enabled_from_order order = clear_enabled := by
    funext t
    rfl
  rw [h1, h2, filter_stable_sort_position]

/-- C8 (as stated, refuted): for the list `[Bloom]` and the techniques
`[Sharpen, Vignette, Bloom]`, the arrangement `[Bloom, Vignette, Sharpen]` satisfies everything
`std::sort` guarantees, and in it the two techniques absent from the list have changed places. -/
theorem load_preset_need_not_keep_relative_order :
    load_preset_techniques ["Bloom"]
      [technique_named "Sharpen" false, technique_named "Vignette" false,
        technique_named "Bloom" false]
      [technique_named "Bloom" true, technique_named "Vignette" false,
        technique_named "Sharpen" false] ∧
    ¬ keeps_relative_order ["Bloom"]
      [technique_named "Sharpen" false, technique_named "Vignette" false,
        technique_named "Bloom" false]
      [technique_named "Bloom" true, technique_named "Vignette" false,
        technique_named "Sharpen" false] := by
  refine ⟨⟨[technique_named "Bloom" false, technique_named "Vignette" false,
      technique_named "Sharpen" false], by decide, by decide⟩, ?_⟩
  intro h
  have h1 := h 1
  revert h1
  decide

/-- C8 (amended): the reordering done by `load_preset` is a sort by position in the name list
that fixes the order only between techniques of different positions: the stable arrangement
is one admissible result, and every result has the same sequence of positions as the stable
one and is a permutation of it, so results differ at most in the order of techniques with
equal position (both absent from the list, or bearing the same name). -/
theorem load_preset_sorts_up_to_equal_positions (order : List String) (ts : List technique) :
    load_preset_techniques order ts
      ((stable_sort_techniques order ts).map (set_enabled_from_order order)) ∧
    keeps_relative_order order ts
      ((stable_sort_techniques order ts).map (set_enabled_from_order order)) ∧
    (∀ after, load_preset_techniques order ts after →
      after.map (fun t => order_position order t.name) =
        (stable_sort_techniques order ts).map (fun t => order_position order t.name) ∧
      after.Perm ((stable_sort_techniques order ts).map (set_enabled_from_order order))) := by
  refine ⟨⟨_, stable_sort_is_std_sort_result order ts, rfl⟩,
    stable_sort_keeps_relative_order order ts, ?_⟩
  rintro after ⟨sorted, hs, rfl⟩
  constructor
  · rw [List.map_map]
    exact std_sort_result_keys_unique order ts sorted _ hs
      (stable_sort_is_std_sort_result order ts)
  · exact (hs.1.trans (stable_sort_is_std_sort_result order ts).1.symm).map _

theorem perm_lift_map {α β : Type} (g : α → β) {l1 l2 : List α} (hp : l1.Perm l2) :
    ∀ m2 : List α, m2.map g = l2.map g →
      ∃ m1 : List α, m1.Perm m2 ∧ m1.map g = l1.map g := by
  induction hp with
  | nil =>
    intro m2 h
    exact ⟨m2, List.Perm.refl _, h⟩
  | cons x _ ih =>
    intro m2 h
    cases m2 with
    | nil => simp at h
    | cons y m =>
      simp only [List.map_cons, List.cons.injEq] at h
      obtain ⟨m1, hm, hmap⟩ := ih m h.2
      exact ⟨y :: m1, hm.cons y, by simp [h.1, hmap]⟩
  | swap x y l =>
    intro m2 h
    cases m2 with
    | nil => simp at h
    | cons a m =>
      cases m with
      | nil => simp at h
      | cons b m =>
        simp only [List.map_cons, List.cons.injEq] at h
        exact ⟨b :: a :: m, List.Perm.swap a b m, by simp [h.1, h.2.1, h.2.2]⟩
  | trans _ _ ih1 ih2 =>
    intro m2 h
    obtain ⟨mid, hmid, hmap⟩ := ih2 m2 h
    obtain ⟨m1, hm1, hmap1⟩ := ih1 mid hmap
    exact ⟨m1, hm1.trans hmid, hmap1⟩

theorem load_preset_techniques_of_same_cleared (order : List String)
    (ts ts2 after : List technique) (hc : ts2.map clear_enabled = ts.map clear_enabled)
    (h : load_preset_techniques order ts after) : load_preset_techniques order ts2 after := by
  obtain ⟨sorted, hs, rfl⟩ := h
  obtain ⟨m1, hperm, hmap⟩ := perm_lift_map clear_enabled hs.1 ts2 hc
  have hset : ∀ l : List technique,
      l.map (set_enabled_from_order order) =
        (l.map clear_enabled).map (set_enabled_from_order order) := by
    intro l
    rw [List.map_map]
    rfl
  have hpw : ∀ l : List technique,
      l.Pairwise (fun a b => technique_less order b a = false) ↔
        (l.map clear_enabled).Pairwise (fun a b => technique_less order b a = false) := by
    intro l
    rw [List.pairwise_map]
    rfl
  refine ⟨m1, ⟨hperm, ?_⟩, ?_⟩
  · rw [hpw, hmap, ← hpw]
    exact hs.2
  · rw [hset sorted, hset m1, hmap]

/-- C9: `load_preset` always yields a result, and in every result a technique is enabled
exactly when its name occurs in the preset's name list; the possible results are the same for
any two collections that differ only in the previous `enabled` flags, and the technique's
annotations are not consulted. -/
theorem load_preset_enables_exactly_listed (order : List String) (ts : List technique) :
    (∃ after, load_preset_techniques order ts after) ∧
    (∀ after, load_preset_techniques order ts after →
      ∀ t ∈ after, (t.enabled = true ↔ t.name ∈ order)) ∧
    (∀ ts2 : List technique, ts2.map clear_enabled = ts.map clear_enabled →
      ∀ after, load_preset_techniques order ts2 after ↔
        load_preset_techniques order ts after) := by
  refine ⟨load_preset_techniques_total order ts, ?_, ?_⟩
  · rintro after ⟨sorted, _, rfl⟩ t ht
    rw [List.mem_map] at ht
    obtain ⟨u, _, rfl⟩ := ht
    simp [set_enabled_from_order]
  · intro ts2 hc after
    exact ⟨load_preset_techniques_of_same_cleared order ts2 ts after hc.symm,
      load_preset_techniques_of_same_cleared order ts ts2 after hc⟩

theorem save_preset_foldl (ts : List technique) :
    ∀ acc : String,
      ts.foldl (fun technique_list t =>
        if t.enabled then technique_list ++ (t.name ++ ",") else technique_list) acc =
      (enabled_names ts).foldl (fun r n => r ++ (n ++ ",")) acc := by
  induction ts with
  | nil => intro acc; rfl
  | cons t ts ih =>
    intro acc
    cases h : t.enabled with
    | true => simp [enabled_names, List.filter_cons, h, ih]
    | false => simp [enabled_names, List.filter_cons, h, ih]

theorem intercalate_go_append (l : List String) :
    ∀ acc : String,
      String.intercalate.go acc "," l ++ "," =
        l.foldl (fun r n => r ++ (n ++ ",")) (acc ++ ",") := by
  induction l with
  | nil => intro acc; rfl
  | cons a l ih =>
    intro acc
    simp only [String.intercalate.go, List.foldl_cons, ih, String.append_assoc]

theorem enabled_names_filter (ts : List technique) :
    enabled_names (ts.filter (fun t => t.enabled)) = enabled_names ts := by
  simp [enabled_names, List.filter_filter]

/-- C10 (as stated, refuted): with two techniques named `Bloom`, the first enabled and the
second disabled, the stored value is `Bloom,` and not the comma-joined list `Bloom`, and it
contains the name of the disabled technique. -/
theorem save_preset_list_not_as_specified :
    save_preset_technique_list sample_same_name = "Bloom," ∧
    technique_list_as_specified sample_same_name = "Bloom" ∧
    save_preset_technique_list sample_same_name ≠ technique_list_as_specified sample_same_name ∧
    (∃ t ∈ sample_same_name,
      t.enabled = false ∧ t.name ∈ enabled_names sample_same_name) := by
  refine ⟨by decide, by decide, by decide, ?_⟩
  exact ⟨{ technique_named "Bloom" false with annotations := [("__FILE__", "Glow.fx")] },
    by decide, by decide, by decide⟩

/-- C10 (amended): the value `save_preset` stores under `GLOBAL/Techniques` is the
concatenation, in collection order, of the name followed by a comma of exactly the
currently-enabled techniques, that is the comma-joined list of their names with one more comma
at its end when any technique is enabled; a disabled technique contributes nothing to it, and
its name is not among the listed names unless an enabled technique bears the same name. -/
theorem save_preset_technique_list_value (ts : List technique) :
    save_preset_technique_list ts =
      String.join ((enabled_names ts).map (fun n => n ++ ",")) ∧
    save_preset_technique_list ts =
      (if enabled_names ts = [] then "" else technique_list_as_specified ts ++ ",") ∧
    save_preset_technique_list ts =
      save_preset_technique_list (ts.filter (fun t => t.enabled)) ∧
    (∀ t ∈ ts, t.enabled = false →
      (∀ u ∈ ts, u.enabled = true → u.name ≠ t.name) → t.name ∉ enabled_names ts) := by
  refine ⟨?_, ?_, ?_, ?_⟩
  · unfold save_preset_technique_list String.join
    rw [save_preset_foldl, List.foldl_map]
  · unfold save_preset_technique_list technique_list_as_specified
    rw [save_preset_foldl]
    cases hn : enabled_names ts with
    | nil => rfl
    | cons a l =>
      rw [if_neg (by simp)]
      simp only [String.intercalate, intercalate_go_append, List.foldl_cons]
      rfl
  · unfold save_preset_technique_list
    rw [save_preset_foldl, save_preset_foldl, enabled_names_filter]
  · intro t _ _ huniq hmem
    unfold enabled_names at hmem
    rw [List.mem_map] at hmem
    obtain ⟨u, hu, hname⟩ := hmem
    rw [List.mem_filter] at hu
    exact huniq u hu.1 hu.2 hname

/-! ## Saving and loading the technique list -/

theorem split_commas_name (n : List Char) (hn : ',' ∉ n) :
    ∀ (rest piece : List Char),
      split_commas (n ++ ',' :: rest) piece = String.mk (piece ++ n) :: split_commas rest [] := by
  induction n with
  | nil =>
    intro rest piece
    simp [split_commas]
  | cons c cs ih =>
    intro rest piece
    have hc : c ≠ ',' := fun h => hn (by simp [h])
    have hcs : ',' ∉ cs := fun h => hn (by simp [h])
    rw [List.cons_append, split_commas, if_neg hc, ih hcs]
    simp

theorem foldl_names_data (names : List String) :
    ∀ acc : String,
      (names.foldl (fun r n => r ++ (n ++ ",")) acc).data =
        acc.data ++ (names.map (fun n => n.data ++ [','])).flatten := by
  induction names with
  | nil => intro acc; simp
  | cons n ns ih =>
    intro acc
    simp only [List.foldl_cons, ih, String.data_append, List.map_cons, List.flatten_cons,
      List.append_assoc]

theorem split_commas_names (names : List String) (hn : ∀ n ∈ names, ',' ∉ n.data) :
    split_commas (names.map (fun n => n.data ++ [','])).flatten [] = names := by
  induction names with
  | nil => rfl
  | cons n ns ih =>
    have h1 : ',' ∉ n.data := hn n (by simp)
    have h2 : ∀ m ∈ ns, ',' ∉ m.data := fun m hm => hn m (by simp [hm])
    simp only [List.map_cons, List.flatten_cons, List.append_assoc, List.singleton_append]
    rw [split_commas_name n.data h1, ih h2]
    simp

theorem saved_order_eq (ts : List technique) (hn : ∀ n ∈ enabled_names ts, ',' ∉ n.data) :
    saved_order ts = enabled_names ts := by
  unfold saved_order read_technique_list save_preset_technique_list
  rw [save_preset_foldl, foldl_names_data]
  simpa using split_commas_names (enabled_names ts) hn
theorem nodup_pairwise_indexOf (l : List String) (h : l.Nodup) :
    l.Pairwise (fun a b => l.indexOf a < l.indexOf b) := by
  induction l with
  | nil => exact List.Pairwise.nil
  | cons x xs ih =>
    rw [List.nodup_cons] at h
    refine List.Pairwise.cons ?_ ?_
    · intro b hb
      have hne : x ≠ b := fun e => h.1 (e ▸ hb)
      rw [List.indexOf_cons_self, List.indexOf_cons_ne _ hne]
      exact Nat.succ_pos _
    · refine (ih h.2).imp_of_mem ?_
      intro a b ha hb hab
      have hxa : x ≠ a := fun e => h.1 (e ▸ ha)
      have hxb : x ≠ b := fun e => h.1 (e ▸ hb)
      rw [List.indexOf_cons_ne _ hxa, List.indexOf_cons_ne _ hxb]
      exact Nat.succ_lt_succ hab

theorem mem_enabled_names_of_enabled (ts : List technique) (t : technique) (ht : t ∈ ts)
    (he : t.enabled = true) : t.name ∈ enabled_names ts :=
  List.mem_map.2 ⟨t, List.mem_filter.2 ⟨ht, he⟩, rfl⟩

theorem load_saved_enabled (ts : List technique) (hd : (enabled_names ts).Nodup)
    (hs : ∀ t ∈ ts, t.enabled = false → t.name ∉ enabled_names ts) (after : List technique)
    (h : load_preset_techniques (enabled_names ts) ts after) :
    enabled_techniques after = enabled_techniques ts := by
  obtain ⟨sorted, hsort, rfl⟩ := h
  have hiff : ∀ t ∈ sorted, (t.name ∈ enabled_names ts ↔ t.enabled = true) := by
    intro t ht
    have hts : t ∈ ts := hsort.1.subset ht
    constructor
    · intro hn
      cases he : t.enabled with
      | true => rfl
      | false => exact absurd hn (hs t hts he)
    · exact mem_enabled_names_of_enabled ts t hts
  -- the flags written by the load agree with the flags before
  have hfix : ∀ t ∈ sorted, set_enabled_from_order (enabled_names ts) t = t := by
    intro t ht
    have h1 := hiff t ht
    cases he : t.enabled with
    | true =>
      have : (enabled_names ts).contains t.name = true := by simpa using h1.2 he
      unfold set_enabled_from_order
      rw [this, ← he]
    | false =>
      have : (enabled_names ts).contains t.name = false := by
        rw [he] at h1
        simpa using h1
      unfold set_enabled_from_order
      rw [this, ← he]
  have hmap : sorted.map (set_enabled_from_order (enabled_names ts)) = sorted := by
    conv_rhs => rw [← List.map_id sorted]
    exact List.map_congr_left hfix
  unfold enabled_techniques
  rw [hmap]
  -- both lists of enabled techniques are strictly increasing in list position
  have hanti : IsAntisymm technique (fun a b =>
      order_position (enabled_names ts) a.name < order_position (enabled_names ts) b.name) :=
    ⟨fun a b h1 h2 => absurd h1 (Nat.lt_asymm h2)⟩
  refine List.eq_of_perm_of_sorted (r := fun a b : technique =>
      order_position (enabled_names ts) a.name < order_position (enabled_names ts) b.name)
    (hsort.1.filter _) ?_ ?_
  · have hle : (sorted.filter (fun t => t.enabled)).Pairwise (fun a b =>
        order_position (enabled_names ts) a.name ≤ order_position (enabled_names ts) b.name) :=
      (hsort.2.imp (fun {a b} hab => (technique_less_eq_false _ a b).1 hab)).filter _
    have hperm : ((sorted.filter (fun t => t.enabled)).map (fun t => t.name)).Perm
        (enabled_names ts) :=
      (hsort.1.filter (fun t => t.enabled)).map (fun t => t.name)
    have hnd : ((sorted.filter (fun t => t.enabled)).map (fun t => t.name)).Nodup :=
      hperm.nodup_iff.2 hd
    rw [List.Nodup, List.pairwise_map] at hnd
    refine (hle.and hnd).imp_of_mem ?_
    intro a b ha hb hab
    have hane := mem_enabled_names_of_enabled ts a
      (hsort.1.subset (List.mem_filter.1 ha).1) (List.mem_filter.1 ha).2
    have hbne := mem_enabled_names_of_enabled ts b
      (hsort.1.subset (List.mem_filter.1 hb).1) (List.mem_filter.1 hb).2
    have hne : order_position (enabled_names ts) a.name ≠
        order_position (enabled_names ts) b.name :=
      fun e => hab.2 ((List.indexOf_inj hane hbne).1 e)
    exact Nat.lt_of_le_of_ne hab.1 hne
  · have := nodup_pairwise_indexOf (enabled_names ts) hd
    unfold enabled_names at this
    rw [List.pairwise_map] at this
    exact this
/-- C11 (as stated, refuted): with two techniques named `Bloom`, the first enabled and the
second disabled, the saved list is `Bloom,`; a load is possible, and no result of loading it
has the same enabled techniques as before the save, because both techniques come back
enabled. -/
theorem save_then_load_changes_enabled :
    (∃ after, load_preset_techniques (saved_order sample_same_name) sample_same_name after) ∧
    ¬ ∃ after, load_preset_techniques (saved_order sample_same_name) sample_same_name after ∧
        enabled_techniques after = enabled_techniques sample_same_name := by
  refine ⟨load_preset_techniques_total _ _, ?_⟩
  rintro ⟨after, ⟨sorted, hs, rfl⟩, heq⟩
  have hlen : sorted.length = 2 := hs.1.length_eq
  obtain ⟨x, y, rfl⟩ := List.length_eq_two.1 hlen
  have hx : x.name = "Bloom" := by
    have hm : x ∈ sample_same_name := hs.1.subset (by simp)
    simp only [sample_same_name, List.mem_cons, List.mem_singleton, List.not_mem_nil,
      or_false] at hm
    rcases hm with e | e <;> rw [e] <;> rfl
  have hy : y.name = "Bloom" := by
    have hm : y ∈ sample_same_name := hs.1.subset (by simp)
    simp only [sample_same_name, List.mem_cons, List.mem_singleton, List.not_mem_nil,
      or_false] at hm
    rcases hm with e | e <;> rw [e] <;> rfl
  have ho : saved_order sample_same_name = ["Bloom"] := by decide
  have hl := congrArg List.length heq
  have hr : (enabled_techniques sample_same_name).length = 1 := by decide
  rw [hr, ho] at hl
  simp [enabled_techniques, set_enabled_from_order, hx, hy] at hl

/-- C11 (amended): for every technique collection in which the enabled techniques have
pairwise different names, no disabled technique has the name of an enabled one, and no enabled
name contains a comma, `save_preset` followed by `load_preset` of the same preset always
yields a result, and in every result the enabled techniques are exactly the techniques that
were enabled before the save, in the same relative order. -/
theorem save_then_load_keeps_enabled (ts : List technique)
    (hcomma : ∀ n ∈ enabled_names ts, ',' ∉ n.data)
    (hdistinct : (enabled_names ts).Nodup)
    (hdisabled : ∀ t ∈ ts, t.enabled = false → t.name ∉ enabled_names ts) :
    (∃ after, load_preset_techniques (saved_order ts) ts after) ∧
    (∀ after, load_preset_techniques (saved_order ts) ts after →
      enabled_techniques after = enabled_techniques ts) := by
  rw [saved_order_eq ts hcomma]
  exact ⟨load_preset_techniques_total _ _,
    fun after h => load_saved_enabled ts hdistinct hdisabled after h⟩

theorem save_then_load_keeps_enabled_witness :
    (∀ n ∈ enabled_names sample_distinct, ',' ∉ n.data) ∧
    (enabled_names sample_distinct).Nodup ∧
    (∀ t ∈ sample_distinct, t.enabled = false → t.name ∉ enabled_names sample_distinct) ∧
    (∃ after, load_preset_techniques (saved_order sample_distinct) sample_distinct after) ∧
    (∀ after, load_preset_techniques (saved_order sample_distinct) sample_distinct after →
      enabled_techniques after = enabled_techniques sample_distinct) :=
  ⟨by decide, by decide, by decide,
    save_then_load_keeps_enabled sample_distinct (by decide) (by decide) (by decide)⟩

/-! ## The uniform binding pass -/

theorem bind_uniform_of_source {F B : Type} (ops : float_ops F) (va : variant_access F)
    (st : uniform_storage F B) (frame : binding_frame) (r : Int) (v : uniform) (b : B)
    (source : String) (h : annotations_find v.annotations "source" = some source) :
    bind_uniform ops va st frame r v b =
      if source = "frametime" then
        binding_outcome.written
          (uniform_data.floats [ops.mul (ops.of_int frame.last_frame_duration) ops.literal_1e_6])
      else if source = "framecount" ∨ source = "framecounter" then
        binding_outcome.written (framecount_value ops v.basetype frame.framecount)
      else if source = "pingpong" then
        binding_outcome.written
          (uniform_data.floats
            [(pingpong_binding ops va st frame r v b).1,
              (pingpong_binding ops va st frame r v b).2])
      else if source = "date" then
        binding_outcome.written (uniform_data.ints frame.date)
      else if source = "timer" then
        binding_outcome.written (timer_value ops v.basetype frame.timer_count)
      else if source = "key" then
        match key_value frame (va.as_int (annotation_text v "keycode"))
            (va.as_bool (annotation_text v "toggle")) (st.get_bool v b) with
        | none => binding_outcome.unchanged
        | some state => binding_outcome.written (uniform_data.bools [state])
      else if source = "mousepoint" then
        binding_outcome.written
          (uniform_data.floats
            [ops.of_int frame.mouse_position_x, ops.of_int frame.mouse_position_y])
      else if source = "mousebutton" then
        match mousebutton_value frame (va.as_int (annotation_text v "keycode"))
            (va.as_bool (annotation_text v "toggle")) (st.get_bool v b) with
        | none => binding_outcome.unchanged
        | some state => binding_outcome.written (uniform_data.bools [state])
      else if source = "random" then
        match random_value (va.as_int (annotation_text v "min"))
            (va.as_int (annotation_text v "max")) r with
        | none => binding_outcome.division_by_zero
        | some value => binding_outcome.written (uniform_data.ints [value])
      else binding_outcome.unchanged := by
  unfold bind_uniform
  rw [h]

/-- C13: for every frame count `n` the `framecount` / `framecounter` binding writes, to a
float variable, the conversion of `n mod 16777216` (an integer below `2^24`, `0` at `n =
16777216`); to an int or uint variable, `n mod UINT_MAX` (`0` at `n = UINT_MAX`); to a bool
variable, `true` exactly when `n` is even. -/
theorem framecount_binding_values {F B : Type} (ops : float_ops F) (va : variant_access F)
    (st : uniform_storage F B) (frame : binding_frame) (r : Int) (v : uniform) (b : B)
    (n : Nat) :
    ((annotations_find v.annotations "source" = some "framecount" ∨
        annotations_find v.annotations "source" = some "framecounter") →
      bind_uniform ops va st frame r v b =
        binding_outcome.written (framecount_value ops v.basetype frame.framecount)) ∧
    framecount_value ops uniform_datatype.float_ n =
      uniform_data.floats [ops.of_int ((n % 16777216 : Nat) : Int)] ∧
    n % 16777216 < 2 ^ 24 ∧
    framecount_value ops uniform_datatype.float_ 16777216 = uniform_data.floats [ops.of_int 0] ∧
    framecount_value ops uniform_datatype.int_ n = uniform_data.uints [n % UINT_MAX] ∧
    framecount_value ops uniform_datatype.uint_ n = uniform_data.uints [n % UINT_MAX] ∧
    n % UINT_MAX < UINT_MAX ∧
    framecount_value ops uniform_datatype.int_ UINT_MAX = uniform_data.uints [0] ∧
    framecount_value ops uniform_datatype.uint_ UINT_MAX = uniform_data.uints [0] ∧
    framecount_value ops uniform_datatype.bool_ n = uniform_data.bools [decide (Even n)] := by
  have hlt : n % UINT_MAX < UINT_MAX := Nat.mod_lt _ (by decide)
  have hwrap : (n % UINT_MAX) % 4294967296 = n % UINT_MAX :=
    Nat.mod_eq_of_lt (Nat.lt_trans hlt (by decide))
  refine ⟨?_, rfl, Nat.mod_lt _ (by decide), rfl, ?_, ?_, hlt, rfl, rfl, ?_⟩
  · intro h
    rcases h with h | h
    · rw [bind_uniform_of_source ops va st frame r v b _ h]
      simp
    · rw [bind_uniform_of_source ops va st frame r v b _ h]
      simp
  · simp only [framecount_value, hwrap]
  · simp only [framecount_value, hwrap]
  · simp only [framecount_value, Nat.even_iff]

theorem to_unsigned_long_long_of_nat (t : Nat) (ht : t < 18446744073709551616) :
    to_unsigned_long_long (t : Int) = t := by
  unfold to_unsigned_long_long
  omega

/-- C14: for every elapsed nanosecond count `t` (non-negative and within 64 bits), the timer
binding writes to a bool variable and to an int or uint variable exactly what the framecount
binding writes for the frame count `t`. -/
theorem timer_binding_matches_framecount {F : Type} (ops : float_ops F) (t : Nat)
    (ht : t < 18446744073709551616) :
    timer_value ops uniform_datatype.bool_ (t : Int) =
      framecount_value ops uniform_datatype.bool_ t ∧
    timer_value ops uniform_datatype.int_ (t : Int) =
      framecount_value ops uniform_datatype.int_ t ∧
    timer_value ops uniform_datatype.uint_ (t : Int) =
      framecount_value ops uniform_datatype.uint_ t := by
  simp only [timer_value, framecount_value, to_unsigned_long_long_of_nat t ht, and_self]

theorem timer_binding_matches_framecount_witness :
    (5000000001 : Nat) < 18446744073709551616 ∧
    timer_value exact_ops uniform_datatype.bool_ ((5000000001 : Nat) : Int) =
      framecount_value exact_ops uniform_datatype.bool_ 5000000001 ∧
    timer_value exact_ops uniform_datatype.int_ ((5000000001 : Nat) : Int) =
      framecount_value exact_ops uniform_datatype.int_ 5000000001 ∧
    timer_value exact_ops uniform_datatype.uint_ ((5000000001 : Nat) : Int) =
      framecount_value exact_ops uniform_datatype.uint_ 5000000001 :=
  ⟨by decide, timer_binding_matches_framecount exact_ops 5000000001 (by decide)⟩
/-- C16: in every pingpong update, when moving up (`value[1] >= 0`) the direction written is
`-1` and the value written is `max` when `value[0] + increment >= max`, and otherwise the
sum and the unchanged direction are written; when moving down the direction written is `+1`
and the value written is `min` when `value[0] - increment <= min`, and otherwise the
difference and the unchanged direction are written. -/
theorem pingpong_reverses_at_bounds {F : Type} (ops : float_ops F)
    (min max step_min step_max smoothing : F) (duration r : Int) (value : F × F) :
    (ops.ge value.2 (ops.of_int 0) = true →
      (ops.ge (ops.add value.1
          (pingpong_step_up ops max step_min step_max smoothing duration r value)) max = true →
        pingpong_update ops min max step_min step_max smoothing duration r value =
          (max, ops.of_int (-1))) ∧
      (ops.ge (ops.add value.1
          (pingpong_step_up ops max step_min step_max smoothing duration r value)) max = false →
        pingpong_update ops min max step_min step_max smoothing duration r value =
          (ops.add value.1
            (pingpong_step_up ops max step_min step_max smoothing duration r value),
            value.2))) ∧
    (ops.ge value.2 (ops.of_int 0) = false →
      (ops.le (ops.sub value.1
          (pingpong_step_down ops min step_min step_max smoothing duration r value)) min = true →
        pingpong_update ops min max step_min step_max smoothing duration r value =
          (min, ops.of_int 1)) ∧
      (ops.le (ops.sub value.1
          (pingpong_step_down ops min step_min step_max smoothing duration r value)) min =
            false →
        pingpong_update ops min max step_min step_max smoothing duration r value =
          (ops.sub value.1
            (pingpong_step_down ops min step_min step_max smoothing duration r value),
            value.2))) := by
  refine ⟨fun hup => ⟨fun h => ?_, fun h => ?_⟩,
    fun hdown => ⟨fun h => ?_, fun h => ?_⟩⟩
  · simp [pingpong_update, hup, h]
  · simp [pingpong_update, hup, h]
  · simp [pingpong_update, hdown, h]
  · simp [pingpong_update, hdown, h]

/-- C17 (the source at the failing input): with `step = (0, 0.5)` and `std::rand()`
returning `1`, the increment picked at line 282 is `0 + fmod(1, 0.5 - 0 + 1) = 1`, which is
not `<= step_max`, although `step_min <= step_max`. -/
theorem pingpong_increment_exceeds_step_max :
    exact_ops.le (some 0) (some (1 / 2)) = true ∧
    pingpong_increment exact_ops (some 0) (some (1 / 2)) 1 = some 1 ∧
    exact_ops.le (pingpong_increment exact_ops (some 0) (some (1 / 2)) 1) (some (1 / 2)) =
      false := by
  have h : pingpong_increment exact_ops (some 0) (some (1 / 2)) 1 = some 1 := by
    simp [pingpong_increment, exact_ops, exact_fmod]
    norm_num
  rw [h]
  refine ⟨?_, rfl, ?_⟩
  · simp [exact_ops]
  · simp [exact_ops]
    norm_num
theorem pingpong_smoothed_not_below_floor {F : Type} (ops : float_ops F)
    (increment smoothing room : F)
    (hirrefl : ops.lt ops.literal_0_05 ops.literal_0_05 = false) :
    ops.lt (pingpong_smoothed ops increment smoothing room) ops.literal_0_05 = false := by
  unfold pingpong_smoothed std_max
  split_ifs with h1 h2 h3
  · exact hirrefl
  · simpa using h2
  · exact hirrefl
  · simpa using h3

/-- C18: for a `key` variable with keycode `k` in `8..255`, without the toggle annotation the
value written is the key's current down state; with it the negation of the stored boolean is
written in exactly the frames in which the key was pressed, and nothing is written in any
other frame. For a keycode outside `8..255` nothing is written. -/
theorem key_binding_writes {F B : Type} (ops : float_ops F) (va : variant_access F)
    (st : uniform_storage F B) (frame : binding_frame) (r : Int) (v : uniform) (b : B)
    (hsource : annotations_find v.annotations "source" = some "key") :
    (7 < va.as_int (annotation_text v "keycode") →
      va.as_int (annotation_text v "keycode") < 256 →
      (va.as_bool (annotation_text v "toggle") = false →
        bind_uniform ops va st frame r v b =
          binding_outcome.written
            (uniform_data.bools [frame.is_key_down (va.as_int (annotation_text v "keycode"))])) ∧
      (va.as_bool (annotation_text v "toggle") = true →
        frame.is_key_pressed (va.as_int (annotation_text v "keycode")) = true →
        bind_uniform ops va st frame r v b =
          binding_outcome.written (uniform_data.bools [!st.get_bool v b])) ∧
      (va.as_bool (annotation_text v "toggle") = true →
        frame.is_key_pressed (va.as_int (annotation_text v "keycode")) = false →
        bind_uniform ops va st frame r v b = binding_outcome.unchanged)) ∧
    ((va.as_int (annotation_text v "keycode") ≤ 7 ∨
        256 ≤ va.as_int (annotation_text v "keycode")) →
      bind_uniform ops va st frame r v b = binding_outcome.unchanged) := by
  rw [bind_uniform_of_source ops va st frame r v b _ hsource]
  simp only [key_value, toggle_or_state]
  refine ⟨fun h1 h2 => ⟨fun ht => ?_, fun ht hp => ?_, fun ht hp => ?_⟩, fun h => ?_⟩
  · simp [h1, h2, ht]
  · simp [h1, h2, ht, hp]
  · simp [h1, h2, ht, hp]
  · have : (decide (va.as_int (annotation_text v "keycode") > 7) &&
        decide (va.as_int (annotation_text v "keycode") < 256)) = false := by
      rcases h with h | h
      · have : ¬ va.as_int (annotation_text v "keycode") > 7 := by omega
        simp [this]
      · have : ¬ va.as_int (annotation_text v "keycode") < 256 := by omega
        simp [this]
    simp [this]
theorem key_binding_writes_witness :
    annotations_find sample_key_uniform.annotations "source" = some "key" ∧
    bind_uniform exact_ops sample_variant_access sample_storage sample_binding_frame 0
      sample_key_uniform false = binding_outcome.written (uniform_data.bools [true]) :=
  ⟨by decide,
    ((key_binding_writes exact_ops sample_variant_access sample_storage sample_binding_frame 0
      sample_key_uniform false (by decide)).1 (by decide) (by decide)).2.1
      (by decide) (by decide)⟩

theorem to_int_of_range (x : Int) (hlo : -2147483648 ≤ x) (hhi : x < 2147483648) :
    to_int x = x := by
  unfold to_int
  split_ifs <;> omega

/-- C19: for a `random` variable whose annotations `min <= max` are `int`s with `max - min +
1` representable as an `int`, and for every non-negative output `r` of `std::rand()`, the
divisor is not zero and the integer written lies between `min` and `max` inclusive. -/
theorem random_value_in_range (min max r : Int)
    (hmin : -2147483648 ≤ min) (hmax : max < 2147483648) (hle : min ≤ max)
    (hrep : max - min + 1 < 2147483648) (hr : 0 ≤ r) :
    random_modulus min max ≠ 0 ∧
    ∃ value, random_value min max r = some value ∧ min ≤ value ∧ value ≤ max := by
  have hm : random_modulus min max = max - min + 1 := by
    unfold random_modulus
    rw [to_int_of_range (max - min) (by omega) (by omega),
      to_int_of_range (max - min + 1) (by omega) (by omega)]
  have hpos : 0 < max - min + 1 := by omega
  have h0 : 0 ≤ Int.tmod r (max - min + 1) := Int.tmod_nonneg _ hr
  have h1 : Int.tmod r (max - min + 1) < max - min + 1 := Int.tmod_lt_of_pos _ hpos
  refine ⟨by rw [hm]; omega, min + Int.tmod r (max - min + 1), ?_, by omega, by omega⟩
  unfold random_value
  rw [hm, if_neg (by omega), to_int_of_range _ (by omega) (by omega)]

theorem random_value_in_range_witness :
    (-2147483648 : Int) ≤ 1 ∧ (6 : Int) < 2147483648 ∧ (1 : Int) ≤ 6 ∧
    (6 : Int) - 1 + 1 < 2147483648 ∧ (0 : Int) ≤ 32767 ∧
    random_modulus 1 6 ≠ 0 ∧
    ∃ value, random_value 1 6 32767 = some value ∧ 1 ≤ value ∧ value ≤ 6 :=
  ⟨by decide, by decide, by decide, by decide, by decide,
    random_value_in_range 1 6 32767 (by decide) (by decide) (by decide) (by decide)
      (by decide)⟩
theorem bind_uniform_of_unbound {F B : Type} (ops : float_ops F) (va : variant_access F)
    (st : uniform_storage F B) (frame : binding_frame) (r : Int) (v : uniform) (b : B)
    (h : unbound v) : bind_uniform ops va st frame r v b = binding_outcome.unchanged := by
  unfold unbound at h
  cases hs : annotations_find v.annotations "source" with
  | none =>
    unfold bind_uniform
    rw [hs]
  | some source =>
    rw [hs] at h
    simp only [bound_sources, List.mem_cons, List.mem_singleton, List.not_mem_nil, or_false,
      not_or] at h
    obtain ⟨h1, h2, h3, h4, h5, h6, h7, h8, h9, h10⟩ := h
    rw [bind_uniform_of_source ops va st frame r v b source hs]
    simp [h1, h2, h3, h4, h5, h6, h7, h8, h9, h10]

theorem binding_loop_unbound {F B : Type} (ops : float_ops F) (va : variant_access F)
    (st : uniform_storage F B) (frame : binding_frame) (rand : Nat → Int)
    (uniforms : List (uniform × B)) :
    ∀ (k : Nat) (done : List (uniform × B)),
      binding_loop ops va st frame rand k uniforms = some done →
      List.Forall₂ (fun before after => after.1 = before.1 ∧ (unbound before.1 →
        after.2 = before.2)) uniforms done := by
  induction uniforms with
  | nil =>
    intro k done h
    simp only [binding_loop, Option.some.injEq] at h
    subst h
    exact List.Forall₂.nil
  | cons vb rest ih =>
    obtain ⟨v, b⟩ := vb
    intro k done h
    simp only [binding_loop] at h
    cases hb : bind_uniform ops va st frame (rand k) v b with
    | division_by_zero => simp [hb] at h
    | unchanged =>
      simp only [hb, Option.map_eq_some'] at h
      obtain ⟨tail, htail, rfl⟩ := h
      exact List.Forall₂.cons ⟨rfl, fun _ => rfl⟩ (ih _ _ htail)
    | written data =>
      simp only [hb, Option.map_eq_some'] at h
      obtain ⟨tail, htail, rfl⟩ := h
      refine List.Forall₂.cons ⟨rfl, fun hu => ?_⟩ (ih _ _ htail)
      rw [bind_uniform_of_unbound ops va st frame (rand k) v b hu] at hb
      cases hb

theorem binding_loop_total {F B : Type} (ops : float_ops F) (va : variant_access F)
    (st : uniform_storage F B) (frame : binding_frame) (rand : Nat → Int)
    (uniforms : List (uniform × B)) :
    ∀ k : Nat,
      (∀ vb ∈ uniforms, ∀ r : Int,
        bind_uniform ops va st frame r vb.1 vb.2 ≠ binding_outcome.division_by_zero) →
      ∃ done, binding_loop ops va st frame rand k uniforms = some done := by
  induction uniforms with
  | nil => intro k _; exact ⟨[], rfl⟩
  | cons vb rest ih =>
    obtain ⟨v, b⟩ := vb
    intro k h
    obtain ⟨tail, htail⟩ := ih (k + rand_calls ops va v)
      (fun vb hvb r => h vb (List.mem_cons_of_mem _ hvb) r)
    simp only [binding_loop]
    cases hb : bind_uniform ops va st frame (rand k) v b with
    | division_by_zero => exact absurd hb (h (v, b) (List.mem_cons_self _ _) (rand k))
    | unchanged => exact ⟨(v, b) :: tail, by simp [htail]⟩
    | written data => exact ⟨(v, st.set_uniform_value v b data) :: tail, by simp [htail]⟩

theorem timeleft_writes_source (uniforms : List uniform) (t : technique) (var : uniform)
    (value : Int)
    (h : backend_call.set_uniform_value var value ∈ timeleft_writes uniforms t) :
    annotations_find var.annotations "source" = some "timeleft" := by
  unfold timeleft_writes at h
  rw [List.mem_filterMap] at h
  obtain ⟨v, _, hv⟩ := h
  cases hs : annotations_find v.annotations "source" with
  | none => simp [hs] at hv
  | some source =>
    by_cases hsrc : source = "timeleft"
    · simp only [hs, hsrc, if_true, Option.some.injEq, backend_call.set_uniform_value.injEq]
        at hv
      rw [← hv.1, hs, hsrc]
    · simp [hs, hsrc] at hv

/-- C20: the binding pass writes only to variables with a `source` annotation: for a variable
without one, and for a variable whose source string is none of those the loop compares
against, the loop body makes no call of `set_uniform_value`; whenever the binding loop
completes (it does unless a `random` variable divides by zero), every such variable has the
value buffer it had before; and the `timeleft` writes of the technique loop go to variables
whose source is `timeleft`. -/
theorem binding_pass_leaves_unbound_variables {F B : Type} (ops : float_ops F)
    (va : variant_access F) (st : uniform_storage F B) (frame : binding_frame)
    (rand : Nat → Int) (k : Nat) (uniforms : List (uniform × B)) :
    (∀ (v : uniform) (b : B) (r : Int), unbound v →
      bind_uniform ops va st frame r v b = binding_outcome.unchanged) ∧
    (∀ v : uniform, annotations_find v.annotations "source" = none → unbound v) ∧
    (∀ (v : uniform) (source : String), annotations_find v.annotations "source" = some source →
      source ∉ bound_sources → unbound v) ∧
    (∀ done, binding_loop ops va st frame rand k uniforms = some done →
      List.Forall₂ (fun before after => after.1 = before.1 ∧ (unbound before.1 →
        after.2 = before.2)) uniforms done) ∧
    ((∀ vb ∈ uniforms, ∀ r : Int,
        bind_uniform ops va st frame r vb.1 vb.2 ≠ binding_outcome.division_by_zero) →
      ∃ done, binding_loop ops va st frame rand k uniforms = some done) ∧
    (∀ (us : List uniform) (t : technique) (var : uniform) (value : Int),
      backend_call.set_uniform_value var value ∈ timeleft_writes us t →
      annotations_find var.annotations "source" = some "timeleft") := by
  refine ⟨fun v b r h => bind_uniform_of_unbound ops va st frame r v b h, ?_, ?_,
    binding_loop_unbound ops va st frame rand uniforms k,
    binding_loop_total ops va st frame rand uniforms k,
    timeleft_writes_source⟩
  · intro v h
    unfold unbound
    rw [h]
    trivial
  · intro v source h hn
    unfold unbound
    rw [h]
    exact hn
/-! ## Preset persistence: the variables -/

/-- C12: `save_preset` writes an entry for a variable exactly when the variable is tagged with
an origin file and has no `source` annotation; the entry is keyed by the origin file's base
name and the variable's unique name and holds the first `rows * columns` of the sixteen
values read, which are `rows * columns` components for every shape of at most sixteen
components; the entries of a collection are those of its variables, in order. -/
theorem save_preset_writes_tagged_unbound {F B : Type} (st : uniform_storage F B)
    (filename : String → String) (v : uniform) (b : B) (uniforms : List (uniform × B)) :
    ((∃ entry, save_preset_entry st filename v b = some entry) ↔
      ((annotations_find v.annotations "__FILE__").isSome = true ∧
        annotations_find v.annotations "source" = none)) ∧
    (∀ entry, save_preset_entry st filename v b = some entry →
      entry.section_name = filename (annotation_text v "__FILE__") ∧
      entry.key = v.unique_name ∧
      entry.values =
        ((List.finRange 16).map (st.get_float16 v b)).take (v.rows * v.columns) ∧
      (v.rows * v.columns ≤ 16 → entry.values.length = v.rows * v.columns)) ∧
    (save_preset_uniforms st filename uniforms).map (fun entry => entry.key) =
      ((uniforms.filter (fun vb =>
        (annotations_find vb.1.annotations "__FILE__").isSome &&
          !(annotations_find vb.1.annotations "source").isSome)).map
        (fun vb => vb.1.unique_name)) := by
  refine ⟨?_, ?_, ?_⟩
  · unfold save_preset_entry
    cases hs : annotations_find v.annotations "source" <;>
      cases hf : annotations_find v.annotations "__FILE__" <;> simp
  · intro entry h
    unfold save_preset_entry at h
    split_ifs at h
    simp only [Option.some.injEq] at h
    subst h
    refine ⟨rfl, rfl, rfl, fun hshape => ?_⟩
    simp only [List.length_take, List.length_map, List.length_finRange]
    omega
  · unfold save_preset_uniforms
    induction uniforms with
    | nil => rfl
    | cons vb rest ih =>
      obtain ⟨v, b⟩ := vb
      rw [List.filterMap_cons, List.filter_cons]
      cases hs : annotations_find v.annotations "source" with
      | some source =>
        have he : save_preset_entry st filename v b = none := by
          simp [save_preset_entry, hs]
        simp only [he, hs, Option.isSome_some, Bool.not_true, Bool.and_false]
        exact ih
      | none =>
        cases hf : annotations_find v.annotations "__FILE__" with
        | none =>
          have he : save_preset_entry st filename v b = none := by
            simp [save_preset_entry, hf]
          simp only [he, hf, Option.isSome_none, Bool.false_and]
          exact ih
        | some file =>
          have he : save_preset_entry st filename v b =
              some { section_name := filename (annotation_text v "__FILE__"),
                     key := v.unique_name,
                     values := ((List.finRange 16).map (st.get_float16 v b)).take
                       (v.rows * v.columns) } := by
            simp [save_preset_entry, hs, hf]
          simp only [he, hs, hf, Option.isSome_some, Option.isSome_none, Bool.not_false,
            Bool.and_self, if_true, List.map_cons, ih]

/-! ## The pingpong interval -/

theorem toggle_of_short_frame (t : technique) (f : frame)
    (hpos : t.timeleft > 0) (hint : t.timeleft < 2147483648)
    (habs : absolute_time_matches t f = false)
    (hlo : 0 ≤ f.last_frame_duration) (hhi : f.last_frame_duration < 1000000) :
    toggle t f = (t, []) := by
  have hms : milliseconds_count f.last_frame_duration = 0 :=
    Int.tdiv_eq_zero_of_lt hlo hhi
  have hsub : sub_assign_unsigned t.timeleft 0 = t.timeleft := by
    have := sub_assign_unsigned_exact t.timeleft 0 (by omega) (by omega)
    simpa using this
  rw [toggle_of_countdown t f habs hpos, hms, hsub, if_neg (by omega)]

/-- C29: the countdown subtracts whole milliseconds only: for a technique with `timeleft > 0`
(an `int`) and every sequence of frames that each last less than one millisecond and have no
absolute-time match, the technique, and so its `timeleft` and `enabled`, is the same after
the sequence as before, and no frame of the sequence flips it. -/
theorem countdown_ignores_short_frames (t : technique) (frames : List frame)
    (hpos : t.timeleft > 0) (hint : t.timeleft < 2147483648)
    (hframes : ∀ f ∈ frames, absolute_time_matches t f = false ∧
      0 ≤ f.last_frame_duration ∧ f.last_frame_duration < 1000000) :
    (apply_events t (frames.map session_event.present)).1 = t ∧
    (apply_events t (frames.map session_event.present)).1.timeleft = t.timeleft ∧
    (apply_events t (frames.map session_event.present)).1.enabled = t.enabled ∧
    ∀ record ∈ (apply_events t (frames.map session_event.present)).2, record = [] := by
  have key : (apply_events t (frames.map session_event.present)).1 = t ∧
      ∀ record ∈ (apply_events t (frames.map session_event.present)).2, record = [] := by
    induction frames with
    | nil => exact ⟨rfl, fun _ h => absurd h (List.not_mem_nil _)⟩
    | cons f fs ih =>
      have hf := hframes f (List.mem_cons_self _ _)
      have hstep := toggle_of_short_frame t f hpos hint hf.1 hf.2.1 hf.2.2
      have hrest := ih (fun g hg => hframes g (List.mem_cons_of_mem _ hg))
      simp only [List.map_cons, apply_events, apply_event, hstep]
      refine ⟨hrest.1, ?_⟩
      intro record hrec
      rcases List.mem_cons.1 hrec with h | h
      · exact h
      · exact hrest.2 record h
  exact ⟨key.1, by rw [key.1], by rw [key.1], key.2⟩

theorem countdown_ignores_short_frames_witness :
    sample_counting.timeleft > 0 ∧ sample_counting.timeleft < 2147483648 ∧
    (∀ f ∈ List.replicate 5000 { sample_frame_noon with last_frame_duration := 999999 },
      absolute_time_matches sample_counting f = false ∧
      0 ≤ f.last_frame_duration ∧ f.last_frame_duration < 1000000) ∧
    (apply_events sample_counting
      ((List.replicate 5000 { sample_frame_noon with last_frame_duration := 999999 }).map
        session_event.present)).1 = sample_counting := by
  have h : ∀ f ∈ List.replicate 5000 { sample_frame_noon with last_frame_duration := 999999 },
      absolute_time_matches sample_counting f = false ∧
      0 ≤ f.last_frame_duration ∧ f.last_frame_duration < 1000000 := by
    intro f hf
    rw [List.eq_of_mem_replicate hf]
    decide
  exact ⟨by decide, by decide, h,
    (countdown_ignores_short_frames sample_counting _ (by decide) (by decide) h).1⟩
/-! ## The comparison passed to the sort -/

/-- C30: for every preset name list, the comparison `load_preset` passes to `std::sort`
compares positions in the list, an absent name having the list's length as position; it is
irreflexive and transitive, two techniques are incomparable exactly when they have the same
position, and incomparability is transitive: a strict weak ordering. -/
theorem technique_less_strict_weak_ordering (order : List String) :
    (∀ a b : technique, technique_less order a b = true ↔
      order.indexOf a.name < order.indexOf b.name) ∧
    (∀ a : technique, a.name ∉ order → order_position order a.name = order.length) ∧
    (∀ a : technique, technique_less order a a = false) ∧
    (∀ a b c : technique, technique_less order a b = true → technique_less order b c = true →
      technique_less order a c = true) ∧
    (∀ a b : technique,
      (technique_less order a b = false ∧ technique_less order b a = false) ↔
        order_position order a.name = order_position order b.name) ∧
    (∀ a b c : technique,
      technique_less order a b = false ∧ technique_less order b a = false →
      technique_less order b c = false ∧ technique_less order c b = false →
      technique_less order a c = false ∧ technique_less order c a = false) := by
  refine ⟨?_, ?_, ?_, ?_, ?_, ?_⟩
  · intro a b
    simp [technique_less, order_position]
  · intro a ha
    exact List.indexOf_eq_length.2 ha
  · intro a
    simp [technique_less]
  · intro a b c hab hbc
    simp only [technique_less, decide_eq_true_eq] at hab hbc ⊢
    omega
  · intro a b
    simp only [technique_less, decide_eq_false_iff_not]
    omega
  · intro a b c hab hbc
    simp only [technique_less, decide_eq_false_iff_not] at hab hbc ⊢
    omega
/-! ## User-configured preprocessor definitions -/

theorem take_indexOf_append_drop (a : Char) (l : List Char) (h : a ∈ l) :
    l.take (l.indexOf a) ++ a :: l.drop (l.indexOf a + 1) = l ∧ a ∉ l.take (l.indexOf a) := by
  induction l with
  | nil => exact absurd h (List.not_mem_nil _)
  | cons x xs ih =>
    by_cases hx : x = a
    · rw [List.indexOf_cons_eq _ hx]
      simp [hx]
    · have hmem : a ∈ xs := by
        rcases List.mem_cons.1 h with e | e
        · exact absurd e.symm hx
        · exact e
      have := ih hmem
      rw [List.indexOf_cons_ne _ hx]
      refine ⟨by simp [this.1], ?_⟩
      simp only [List.take_succ_cons, List.mem_cons, not_or]
      exact ⟨fun e => hx e.symm, this.2⟩

/-- C26: for every user-configured definition string `d`: an empty `d` defines nothing; a `d`
that contains `=` defines a macro whose name is the part of `d` before the first `=` and
whose value is everything after it, so that name, `=` and value together are `d` and the name
contains no `=`; any other `d` defines a bare macro named `d`. -/
theorem user_definition_split (d : String) :
    (d = "" → add_user_definition d = none) ∧
    (d ≠ "" → '=' ∈ d.data →
      ∃ name value : String,
        add_user_definition d = some (added_definition.valued name value) ∧
        name ++ "=" ++ value = d ∧ '=' ∉ name.data ∧
        name.data = d.data.takeWhile (fun c => c != '=')) ∧
    (d ≠ "" → '=' ∉ d.data → add_user_definition d = some (added_definition.bare d)) := by
  have hne : d ≠ "" → d.data ≠ [] := by
    intro h hd
    apply h
    cases d
    simp_all
  refine ⟨?_, ?_, ?_⟩
  · intro h
    rw [h]
    rfl
  · intro h hmem
    have hlt : d.data.indexOf '=' < d.data.length := List.indexOf_lt_length.2 hmem
    have hsplit := take_indexOf_append_drop '=' d.data hmem
    refine ⟨String.mk (d.data.take (d.data.indexOf '=')),
      String.mk (d.data.drop (d.data.indexOf '=' + 1)), ?_, ?_, hsplit.2, ?_⟩
    · unfold add_user_definition
      rw [if_neg (hne h), if_pos hlt]
    · apply String.ext
      simp only [String.data_append]
      show (d.data.take (d.data.indexOf '=') ++ ['=']) ++ d.data.drop (d.data.indexOf '=' + 1) =
        d.data
      rw [List.append_assoc]
      exact hsplit.1
    · show d.data.take (d.data.indexOf '=') = d.data.takeWhile (fun c => c != '=')
      generalize d.data = l at hmem
      induction l with
      | nil => rfl
      | cons x xs ih =>
        by_cases hx : x = '='
        · rw [List.indexOf_cons_eq _ hx]
          simp [hx]
        · have hm : '=' ∈ xs := by
            rcases List.mem_cons.1 hmem with e | e
            · exact absurd e.symm hx
            · exact e
          rw [List.indexOf_cons_ne _ hx, List.take_succ_cons, List.takeWhile_cons, ih hm]
          simp [hx]
  · intro h hmem
    have hge : ¬ d.data.indexOf '=' < d.data.length := by
      rw [List.indexOf_lt_length]
      exact hmem
    unfold add_user_definition
    rw [if_neg (hne h), if_neg hge]
/-! ## Configuration -/

/-- C22 (the source at the failing input): whatever `as<bool>` makes of the stored text, the
mode loaded at line 726 is `0` or `1`; a configuration that holds mode `2` is never loaded
as mode `2`. -/
theorem load_input_processing_mode_never_two (as_bool : String → Bool) (stored : String) :
    load_input_processing_mode as_bool stored ≠ 2 ∧
    (load_input_processing_mode as_bool stored = 0 ∨
      load_input_processing_mode as_bool stored = 1) := by
  unfold load_input_processing_mode
  cases as_bool stored
  · exact ⟨by decide, Or.inl rfl⟩
  · exact ⟨by decide, Or.inr rfl⟩

/-- C23 (the source at the failing input): a variable of shape `4 x 4` that is tagged with an
origin file and has no `source` annotation is written by `save_preset` with sixteen
components, and the condition of the assertion at line 901 is false for it. -/
theorem save_preset_assertion_fails_for_matrix {F B : Type} (st : uniform_storage F B)
    (filename : String → String) (b : B) :
    (1 ≤ sample_matrix_uniform.rows ∧ sample_matrix_uniform.rows ≤ 4 ∧
      1 ≤ sample_matrix_uniform.columns ∧ sample_matrix_uniform.columns ≤ 4) ∧
    (∃ entry,
      save_preset_entry st filename sample_matrix_uniform b = some entry ∧
        entry.values.length = 16) ∧
    save_preset_assertion sample_matrix_uniform = false := by
  refine ⟨by decide, ⟨_, rfl, ?_⟩, by decide⟩
  simp [sample_matrix_uniform]

theorem to_size_t_of_nonneg (bits : Nat) (hbits : 32 ≤ bits) (x : Int) (h0 : 0 ≤ x)
    (h1 : x < 2147483648) : to_size_t bits x = x.toNat := by
  unfold to_size_t
  have hpow : (2147483648 : Int) ≤ (2 : Int) ^ bits := by
    have : (2 : Int) ^ 32 ≤ (2 : Int) ^ bits := pow_le_pow_right₀ (by norm_num) hbits
    norm_num at this ⊢
    omega
  rw [Int.emod_eq_of_lt h0 (by omega)]

theorem to_size_t_of_neg (bits : Nat) (hbits : 32 ≤ bits) (x : Int) (h0 : x < 0)
    (h1 : -2147483648 ≤ x) : 2147483648 ≤ to_size_t bits x := by
  unfold to_size_t
  have hpow : (4294967296 : Int) ≤ (2 : Int) ^ bits := by
    have : (2 : Int) ^ 32 ≤ (2 : Int) ^ bits := pow_le_pow_right₀ (by norm_num) hbits
    norm_num at this ⊢
    omega
  have hmod : x % (2 : Int) ^ bits = x + (2 : Int) ^ bits := by
    rw [← Int.add_emod_self]
    exact Int.emod_eq_of_lt (by omega) (by omega)
  rw [hmod]
  omega

/-- C27: the selected-preset index is `-1` or a valid index into the preset list after
`load_configuration`, whatever `int` the configuration supplied for `CurrentPreset` and
whether or not the configured list was empty; the overlay's add-preset and remove-preset
actions keep it so, and removing the only preset yields `-1`. (`size_t` has at least 32 bits
and the list fewer than `2^31` entries.) -/
theorem preset_selection_stays_valid (bits : Nat) (hbits : 32 ≤ bits) :
    (∀ (stored_files discovered : List String) (has_techniques : String → Bool)
        (stored_index : Int),
      -2147483648 ≤ stored_index → stored_index < 2147483648 →
      stored_files.length < 2147483648 →
      valid_selection
        (load_configuration_presets bits stored_files stored_index discovered
          has_techniques)) ∧
    (∀ (s : preset_selection) (path : String), s.preset_files.length + 1 < 2147483648 →
      valid_selection (add_preset s path) ∧
      (add_preset s path).preset_files.get? (add_preset s path).current_preset.toNat =
        some path) ∧
    (∀ s : preset_selection, valid_selection s → 0 ≤ s.current_preset →
      s.preset_files.length < 2147483648 →
      valid_selection (remove_preset bits s) ∧
      (s.preset_files.length = 1 → (remove_preset bits s).current_preset = -1)) := by
  refine ⟨?_, ?_, ?_⟩
  · intro stored_files discovered has_techniques stored_index hlo hhi hlen
    unfold load_configuration_presets valid_selection
    split_ifs with h1 h2
    · exact Or.inl rfl
    · exact Or.inl rfl
    · right
      by_cases hneg : stored_index < 0
      · have := to_size_t_of_neg bits hbits stored_index hneg hlo
        exact absurd (by omega : to_size_t bits stored_index ≥ stored_files.length) h2
      · have := to_size_t_of_nonneg bits hbits stored_index (by omega) hhi
        simp only at h2 ⊢
        omega
  · intro s path hlen
    have hl : (s.preset_files ++ [path]).length = s.preset_files.length + 1 := by simp
    have hcur : (add_preset s path).current_preset = (s.preset_files.length : Int) := by
      unfold add_preset
      rw [hl]
      simp only
      rw [to_int_of_range _ (by omega) (by omega)]
      omega
    refine ⟨Or.inr ?_, ?_⟩
    · rw [hcur]
      simp only [add_preset, hl]
      omega
    · rw [hcur]
      simp [add_preset]
  · intro s hvalid hnonneg hlen
    have hrange : s.current_preset < s.preset_files.length := by
      rcases hvalid with h | h
      · omega
      · exact h.2
    have hnat : s.current_preset.toNat < s.preset_files.length := by omega
    have herase : (s.preset_files.eraseIdx s.current_preset.toNat).length =
        s.preset_files.length - 1 := List.length_eraseIdx_of_lt hnat
    have hconv := to_size_t_of_nonneg bits hbits s.current_preset hnonneg (by omega)
    unfold remove_preset valid_selection
    rw [hconv, herase]
    split_ifs with h
    · simp only
      constructor
      · by_cases hz : s.current_preset = 0
        · left; omega
        · right; omega
      · intro h1
        omega
    · simp only
      constructor
      · right; omega
      · intro h1
        omega

theorem preset_selection_stays_valid_witness :
    32 ≤ 64 ∧
    valid_selection
      (load_configuration_presets 64 ["a.ini", "b.ini"] (-7) [] (fun _ => true)) ∧
    (load_configuration_presets 64 ["a.ini", "b.ini"] 2 [] (fun _ => true)).current_preset =
      -1 ∧
    (remove_preset 64 { preset_files := ["a.ini"], current_preset := 0 }).current_preset =
      -1 :=
  ⟨by decide,
    (preset_selection_stays_valid 64 (by decide)).1 ["a.ini", "b.ini"] [] (fun _ => true)
      (-7) (by decide) (by decide) (by decide),
    by decide,
    ((preset_selection_stays_valid 64 (by decide)).2.2
      { preset_files := ["a.ini"], current_preset := 0 } (Or.inr (by decide)) (by decide)
      (by decide)).2 rfl⟩

/-! ## Key shortcuts as text -/

/-- C28 (the source at the failing input): for a shortcut with both `ctrl` and `shift` set,
whatever the key and whatever the buffer held before, the edit buffer's text is
`Shift + ` alone, while the splash screen prints `Ctrl + Shift + ` followed by the key
name; for `Ctrl + Shift + A` the two texts differ. -/
theorem edit_buffer_text_drops_ctrl (edit_buffer : Nat → Char) (keycode : Nat) :
    edit_buffer_text (copy_key_shortcut_to_edit_buffer edit_buffer
      { keycode := keycode, ctrl := true, shift := true }) = "Shift + ".data ∧
    splash_shortcut_text { keycode := keycode, ctrl := true, shift := true } =
      "Ctrl + Shift + ".data ++ (keyboard_keys keycode).takeWhile (fun c => c != nul) ∧
    splash_shortcut_text { keycode := 65, ctrl := true, shift := true } =
      "Ctrl + Shift + A".data ∧
    edit_buffer_text (copy_key_shortcut_to_edit_buffer edit_buffer
      { keycode := keycode, ctrl := true, shift := true }) ≠
      splash_shortcut_text { keycode := keycode, ctrl := true, shift := true } := by
  have h1 : edit_buffer_text (copy_key_shortcut_to_edit_buffer edit_buffer
      { keycode := keycode, ctrl := true, shift := true }) = "Shift + ".data := by
    simp [edit_buffer_text, copy_key_shortcut_to_edit_buffer, memcpy, c_string, char_array,
      nul]
  refine ⟨h1, rfl, by decide, ?_⟩
  rw [h1]
  simp [splash_shortcut_text]
theorem c_string_of_text (buffer : Nat → Char) (l : List Char) :
    ∀ (start size : Nat), l.length < size → (∀ c ∈ l, c ≠ nul) →
      (∀ i, i < l.length → buffer (start + i) = l.getD i nul) →
      buffer (start + l.length) = nul → c_string buffer start size = l := by
  induction l with
  | nil =>
    intro start size hsize _ _ hend
    obtain ⟨n, rfl⟩ : ∃ n, size = n + 1 := ⟨size - 1, by simp at hsize; omega⟩
    simp at hend
    simp [c_string, hend]
  | cons c cs ih =>
    intro start size hsize hnn hbuf hend
    obtain ⟨n, rfl⟩ : ∃ n, size = n + 1 := ⟨size - 1, by simp at hsize; omega⟩
    have h0 : buffer start = c := by simpa using hbuf 0 (by simp)
    have hc : c ≠ nul := hnn c (by simp)
    rw [c_string, h0, if_neg hc]
    congr 1
    apply ih (start + 1) n (by simp at hsize; omega) (fun x hx => hnn x (by simp [hx]))
    · intro i hi
      have := hbuf (i + 1) (by simp; omega)
      rw [show start + 1 + i = start + (i + 1) by omega, this]
      simp
    · rw [show start + 1 + cs.length = start + (c :: cs).length by simp; omega]
      exact hend

theorem char_array_getD (text : String) (size j : Nat) (h : text.data.length ≤ size) :
    (char_array text size).getD j nul = text.data.getD j nul := by
  unfold char_array
  simp only [List.getD_eq_getElem?_getD]
  by_cases hs : j < size
  · rw [List.getElem?_take_of_lt hs]
    by_cases hj : j < text.data.length
    · rw [List.getElem?_append_left hj]
    · rw [List.getElem?_append_right (by omega),
        List.getElem?_eq_none (l := text.data) (by omega), List.getElem?_replicate]
      split_ifs <;> rfl
  · rw [List.getElem?_eq_none (by simp; omega), List.getElem?_eq_none (by omega)]

theorem char_array_length (text : String) (size : Nat) :
    (char_array text size).length = size := by
  simp [char_array]

theorem char_array_text (text : String) (size : Nat) (h : text.data.length < size)
    (hnn : ∀ c ∈ text.data, c ≠ nul) :
    (char_array text size).takeWhile (fun c => c != nul) = text.data := by
  unfold char_array
  rw [List.take_append_eq_append_take, List.take_of_length_le (by omega)]
  obtain ⟨n, hn⟩ : ∃ n, size - text.data.length = n + 1 :=
    ⟨size - text.data.length - 1, by omega⟩
  rw [hn, List.take_replicate, show min (n + 1) size = (min (n + 1) size - 1) + 1 by omega,
    List.replicate_succ]
  have hall : ∀ c ∈ text.data, (fun c => c != nul) c = true := by
    intro c hc
    simpa using hnn c hc
  rw [List.takeWhile_append_of_pos hall]
  simp

set_option maxRecDepth 100000 in
theorem keyboard_key_names_text :
    ∀ name ∈ keyboard_key_names, name.data.length < 16 ∧ ∀ c ∈ name.data, c ≠ nul := by
  decide

theorem keyboard_key_name_text (keycode : Nat) :
    (keyboard_key_names.getD keycode "").data.length < 16 ∧
      ∀ c ∈ (keyboard_key_names.getD keycode "").data, c ≠ nul := by
  by_cases h : keycode < keyboard_key_names.length
  · exact keyboard_key_names_text _ (by
      rw [List.getD_eq_getElem _ _ h]
      exact List.getElem_mem h)
  · rw [List.getD_eq_default _ _ (by omega)]
    exact ⟨by decide, by simp⟩

theorem c_string_after_copy (buffer : Nat → Char) (pre text row : List Char)
    (hrl : row.length = 16) (hrow : ∀ j, row.getD j nul = text.getD j nul)
    (hlen : text.length < 16) (hnn : ∀ c ∈ text, c ≠ nul) (hpn : ∀ c ∈ pre, c ≠ nul)
    (hpl : pre.length ≤ 8) (hbuf : ∀ i, i < pre.length → buffer i = pre.getD i nul) :
    c_string (memcpy buffer pre.length row) 0 2048 = pre ++ text := by
  apply c_string_of_text
  · rw [List.length_append]
    omega
  · intro c hc
    rcases List.mem_append.1 hc with h | h
    · exact hpn c h
    · exact hnn c h
  · intro i hi
    rw [List.length_append] at hi
    rw [Nat.zero_add]
    unfold memcpy
    by_cases hp : i < pre.length
    · rw [if_neg (by omega), hbuf i hp, List.getD_append _ _ _ _ hp]
    · rw [if_pos (by omega), hrow, List.getD_append_right _ _ _ _ (by omega)]
  · rw [Nat.zero_add, List.length_append]
    unfold memcpy
    rw [if_pos (by omega), hrow, List.getD_eq_default _ _ (by omega)]

/-- Where at most one of `ctrl` and `shift` is set, the edit buffer's text is the text the
splash screen prints, whatever the buffer held before. -/
theorem edit_buffer_text_of_one_modifier (edit_buffer : Nat → Char) (shortcut : key_shortcut)
    (h : ¬ (shortcut.ctrl = true ∧ shortcut.shift = true)) :
    edit_buffer_text (copy_key_shortcut_to_edit_buffer edit_buffer shortcut) =
      splash_shortcut_text shortcut := by
  obtain ⟨keycode, ctrl, shift⟩ := shortcut
  obtain ⟨hlen, hnn⟩ := keyboard_key_name_text keycode
  have hrow := fun j => char_array_getD (keyboard_key_names.getD keycode "") 16 j (by omega)
  have htext := char_array_text (keyboard_key_names.getD keycode "") 16 hlen hnn
  have hrl := char_array_length (keyboard_key_names.getD keycode "") 16
  unfold edit_buffer_text splash_shortcut_text
  simp only [keyboard_keys, htext]
  cases ctrl <;> cases shift
  · exact c_string_after_copy edit_buffer [] _ _ hrl hrow hlen hnn (by simp) (by simp)
      (by simp)
  · exact c_string_after_copy (memcpy edit_buffer 0 (char_array "Shift + " 9))
      "Shift + ".data _ _ hrl hrow hlen hnn (by decide) (by decide)
      (by intro i hi; simp at hi; interval_cases i <;> rfl)
  · exact c_string_after_copy (memcpy edit_buffer 0 (char_array "Ctrl + " 8))
      "Ctrl + ".data _ _ hrl hrow hlen hnn (by decide) (by decide)
      (by intro i hi; simp at hi; interval_cases i <;> rfl)
  · simp at h

/-! ## Performance mode -/

theorem bake_variable_of_tweakable {F : Type} (q : type_qualifiers)
    (va : preset_value_access F) (preset_get : String → String → List String)
    (filename : String) (v : variable_declaration_node F) (node : literal_expression_node F)
    (hu : has_qualifier v.qualifiers q.qualifier_uniform = true)
    (hi : v.initializer_expression = some (expression_node.literal_expression node))
    (hs : annotations_find v.annotation_list "source" = none) :
    bake_variable q va preset_get filename v =
      { v with
        initializer_expression := some (expression_node.literal_expression
          (rewrite_literal va (preset_get filename v.unique_name) v.rows node))
        qualifiers := (v.qualifiers ^^^ q.qualifier_uniform) |||
          (q.qualifier_static ||| q.qualifier_const) } := by
  unfold bake_variable
  rw [hu, hi]
  simp [hs]

theorem bake_variable_of_skipped {F : Type} (q : type_qualifiers)
    (va : preset_value_access F) (preset_get : String → String → List String)
    (filename : String) (v : variable_declaration_node F)
    (h : has_qualifier v.qualifiers q.qualifier_uniform = false ∨
      v.initializer_expression = none ∨
      (∃ id, v.initializer_expression = some (expression_node.other_expression id)) ∨
      (annotations_find v.annotation_list "source").isSome = true) :
    bake_variable q va preset_get filename v = v := by
  unfold bake_variable
  by_cases hu : has_qualifier v.qualifiers q.qualifier_uniform = true
  · rw [hu]
    simp only [Bool.not_true, Bool.false_eq_true, if_false]
    rcases h with h | h | ⟨id, h⟩ | h
    · rw [hu] at h
      exact absurd h (by decide)
    · rw [h]
    · rw [h]
    · rw [h]
      cases v.initializer_expression with
      | none => rfl
      | some e => cases e <;> simp
  · simp [hu]

theorem has_qualifier_testBit (qualifiers qualifier i : Nat)
    (h : has_qualifier qualifiers qualifier = true) (hi : qualifier.testBit i = true) :
    qualifiers.testBit i = true := by
  unfold has_qualifier at h
  have h2 : qualifiers &&& qualifier = qualifier := by simpa using h
  have h3 := congrArg (fun n => Nat.testBit n i) h2
  simp only [Nat.testBit_and, hi, Bool.and_true] at h3
  exact h3

/-- C25: in performance mode with a preset selected every variable of the syntax tree goes
through the rewrite. For a variable with the `uniform` qualifier, a literal initializer and
no `source` annotation the new qualifier set has every `uniform` bit cleared, every `static`
and `const` bit set and every other bit as before; a variable without the `uniform`
qualifier, without an initializer, with a non-literal initializer or with a `source`
annotation is left as it was, qualifiers and initializer included. (The `uniform` constant
shares no bit with `static` and `const`.) -/
theorem performance_mode_rewrites_qualifiers {F : Type} (q : type_qualifiers)
    (hq : q.qualifier_uniform &&& (q.qualifier_static ||| q.qualifier_const) = 0)
    (va : preset_value_access F) (preset_get : String → String → List String)
    (filename : String) (current_preset : Int) (hp : current_preset ≥ 0)
    (vars : List (variable_declaration_node F)) :
    performance_mode_pass q va preset_get filename true current_preset vars =
      vars.map (bake_variable q va preset_get filename) ∧
    (∀ v ∈ vars, ∀ node,
      has_qualifier v.qualifiers q.qualifier_uniform = true →
      v.initializer_expression = some (expression_node.literal_expression node) →
      annotations_find v.annotation_list "source" = none →
      (∀ i, q.qualifier_uniform.testBit i = true →
        (bake_variable q va preset_get filename v).qualifiers.testBit i = false) ∧
      (∀ i, q.qualifier_static.testBit i = true ∨ q.qualifier_const.testBit i = true →
        (bake_variable q va preset_get filename v).qualifiers.testBit i = true) ∧
      (∀ i, q.qualifier_uniform.testBit i = false → q.qualifier_static.testBit i = false →
        q.qualifier_const.testBit i = false →
        (bake_variable q va preset_get filename v).qualifiers.testBit i =
          v.qualifiers.testBit i)) ∧
    (∀ v ∈ vars,
      (has_qualifier v.qualifiers q.qualifier_uniform = false ∨
        v.initializer_expression = none ∨
        (∃ id, v.initializer_expression = some (expression_node.other_expression id)) ∨
        (annotations_find v.annotation_list "source").isSome = true) →
      bake_variable q va preset_get filename v = v) := by
  refine ⟨?_, ?_, ?_⟩
  · simp [performance_mode_pass, hp]
  · intro v _ node hu hi hs
    rw [bake_variable_of_tweakable q va preset_get filename v node hu hi hs]
    simp only [Nat.testBit_or, Nat.testBit_xor]
    have hdis : ∀ i, q.qualifier_uniform.testBit i = true →
        q.qualifier_static.testBit i = false ∧ q.qualifier_const.testBit i = false := by
      intro i hi
      have h3 := congrArg (fun n => Nat.testBit n i) hq
      simp only [Nat.testBit_and, Nat.testBit_or, hi, Bool.true_and, Nat.zero_testBit] at h3
      simpa using h3
    refine ⟨?_, ?_, ?_⟩
    · intro i hi
      obtain ⟨h1, h2⟩ := hdis i hi
      rw [has_qualifier_testBit _ _ i hu hi, hi, h1, h2]
      rfl
    · intro i hi
      rcases hi with h | h <;> simp [h]
    · intro i h1 h2 h3
      simp [h1, h2, h3]
  · intro v _ h
    exact bake_variable_of_skipped q va preset_get filename v h

theorem performance_mode_rewrites_qualifiers_witness :
    sample_qualifiers.qualifier_uniform &&&
      (sample_qualifiers.qualifier_static ||| sample_qualifiers.qualifier_const) = 0 ∧
    (1 : Int) ≥ 0 ∧
    (performance_mode_pass sample_qualifiers sample_preset_access
      (fun _ _ => ["0.75"]) "Effect.fx" true 1 [sample_tweakable]).map
        (fun v => v.qualifiers) = [274] ∧
    performance_mode_pass sample_qualifiers sample_preset_access
      (fun _ _ => ["0.75"]) "Effect.fx" true 1 [sample_tweakable] =
      [sample_tweakable].map
        (bake_variable sample_qualifiers sample_preset_access (fun _ _ => ["0.75"])
          "Effect.fx") :=
  ⟨by decide, by decide, by decide,
    (performance_mode_rewrites_qualifiers sample_qualifiers (by decide) sample_preset_access
      (fun _ _ => ["0.75"]) "Effect.fx" 1 (by decide) [sample_tweakable]).1⟩

/-! ## The compilation loop of `reload` -/

/-- C24 (the source at the failing input): the backend step of `A.fx` adds a variable and
then fails, so the variable stays in `_uniforms` untagged; `B.fx` compiles next and its
tagging loop gives `B.fx` as the origin of the variable that `A.fx` contributed. -/
theorem leftover_object_tagged_with_later_file (as_bool : String → Bool)
    (as_int : String → Int) :
    uniform_named "A_fx_fAmount" ∈ sample_backend_failure.new_uniforms ∧
    uniform_named "A_fx_fAmount" ∉
      (sample_effect_file "shaders/B.fx" "B_fx_fAmount" "Blur").new_uniforms ∧
    compiles sample_backend_failure = false ∧
    (reload as_bool as_int empty_reload_state
      [sample_backend_failure,
        sample_effect_file "shaders/B.fx" "B_fx_fAmount" "Blur"]).uniforms.map
      (fun u => (u.unique_name, annotations_find u.annotations "__FILE__")) =
      [("A_fx_fAmount", some "shaders/B.fx"), ("B_fx_fAmount", some "shaders/B.fx")] := by
  refine ⟨by decide, by decide, by decide, ?_⟩
  rfl

end reshade
